import Mathlib

/-!
# The citra command-line front end (`src/citra/citra.cpp`)

A shallow embedding of `main`: the argument scan built on `getopt_long` and
`strtoul`, the hand-over of the command-line overrides to `Settings::values`,
the acquisition of the display surface and the emulation engine, loader
resolution, the run loop, and the scope-exit teardown.

C strings are lists of characters.  The collaborators of `main` that live in
other translation units (`Config`, `Log`, `MicroProfile`, `Settings::Apply`,
`EmuWindow_SDL2`, `System`, `Loader`, `Core`) appear as events of a trace; the
answers they give back to `main` are a parameter of the run.
-/

namespace Citra

/-- A NUL-terminated C string, as the list of its characters. -/
abbrev CStr := List Char

/-! ## `strtoul(nptr, &endptr, 0)` -/

/-- The `isspace` test of the C locale. -/
def isspace (c : Char) : Bool :=
  c == ' ' || c == '\t' || c == '\n' || c == '\x0b' || c == '\x0c' || c == '\r'

/-- Value of a character as a digit (`0`-`9`, then letters for 10..35), if it is one. -/
def digitVal (c : Char) : Option Nat :=
  if 48 ≤ c.toNat ∧ c.toNat ≤ 57 then some (c.toNat - 48)
  else if 97 ≤ c.toNat ∧ c.toNat ≤ 122 then some (c.toNat - 87)
  else if 65 ≤ c.toNat ∧ c.toNat ≤ 90 then some (c.toNat - 55)
  else none

/-- Whether a character is a digit of the given base. -/
def isDigitOf (base : Nat) (c : Char) : Bool :=
  match digitVal c with
  | some v => decide (v < base)
  | none => false

/-- Accumulate digits, most significant first. -/
def accDigits (base : Nat) (ds : CStr) : Nat :=
  ds.foldl (fun acc c => acc * base + (digitVal c).getD 0) 0

/-- What one call of `strtoul` hands back: the converted value, how far
`endptr` lies behind `nptr`, and whether `errno` was set to `ERANGE`. -/
structure StrtoulResult where
  value : Nat
  endOffset : Nat
  erange : Bool
  deriving DecidableEq, Repr

/-- Conversion of the subject sequence once white space and sign are gone.
With base 0 a leading `0x`/`0X` followed by a hexadecimal digit selects base
16, another leading `0` selects base 8, anything else base 10.  Returns the
unbounded value and the number of characters of the subject sequence. -/
def strtoulSubject (s : CStr) : Nat × Nat :=
  match s with
  | c :: rest =>
    if c = '0' then
      match rest with
      | x :: h :: tl =>
        if (x == 'x' || x == 'X') && isDigitOf 16 h then
          let ds := (h :: tl).takeWhile (isDigitOf 16)
          (accDigits 16 ds, 2 + ds.length)
        else
          let ds := (c :: rest).takeWhile (isDigitOf 8)
          (accDigits 8 ds, ds.length)
      | _ =>
        let ds := (c :: rest).takeWhile (isDigitOf 8)
        (accDigits 8 ds, ds.length)
    else
      let ds := (c :: rest).takeWhile (isDigitOf 10)
      (accDigits 10 ds, ds.length)
  | [] => (0, 0)

/-- The optional sign in front of the subject sequence: whether it is a minus
sign, its length, and what follows it. -/
def strtoulSign (s : CStr) : Bool × Nat × CStr :=
  match s with
  | c :: tl =>
    if c = '-' then (true, 1, tl)
    else if c = '+' then (false, 1, tl)
    else (false, 0, c :: tl)
  | [] => (false, 0, [])

/-- The C library call `strtoul(nptr, &endptr, 0)` (ISO C 7.22.1.4) on a
platform whose `unsigned long` has `ulong_bits` bits: leading white space is
skipped, one sign is accepted, the base is read off the prefix, the longest run
of digits is converted.  No digit: value 0 and `endptr == nptr`.  A value above
`ULONG_MAX`: `ULONG_MAX` and `ERANGE`.  A minus sign negates in `unsigned long`. -/
def strtoul (ulong_bits : Nat) (nptr : CStr) : StrtoulResult :=
  let ws := nptr.takeWhile isspace
  let sign := strtoulSign (nptr.dropWhile isspace)
  let subject := strtoulSubject sign.2.2
  if subject.2 = 0 then ⟨0, 0, false⟩
  else if subject.1 ≥ 2 ^ ulong_bits then
    ⟨2 ^ ulong_bits - 1, ws.length + sign.2.1 + subject.2, true⟩
  else
    ⟨if sign.1 then (2 ^ ulong_bits - subject.1) % 2 ^ ulong_bits else subject.1,
      ws.length + sign.2.1 + subject.2, false⟩

/-! ## `getopt_long(argc, argv, "g:hv", long_options, &option_index)` -/

/-- One row of the `long_options` table of `main` (the `flag` member is 0 in
every row, so a match returns `val`). -/
structure LongOption where
  name : CStr
  has_arg : Bool
  val : Char
  deriving DecidableEq, Repr

/-- The table `long_options` of `main`. -/
def long_options : List LongOption :=
  [⟨"gdbport".toList, true, 'g'⟩, ⟨"help".toList, false, 'h'⟩, ⟨"version".toList, false, 'v'⟩]

/-- The short-option string `"g:hv"` passed by `main`. -/
def optstring : CStr := "g:hv".toList

/-- The scanner state of the C library between calls: `optind`, `optarg`, the
rest of a cluster of short options (`nextchar`), the bounds of the block of
non-options already skipped, and `argv` as permuted so far.  `argc` is the
length of `argv`. -/
structure GetoptData where
  argv : List CStr
  optind : Nat
  optarg : Option CStr
  nextchar : CStr
  first_nonopt : Nat
  last_nonopt : Nat
  deriving DecidableEq, Repr

/-- The state a fresh process has when the first call has run its
initialisation: `optind = 1`, nothing skipped, no cluster pending. -/
def GetoptData.init (argv : List CStr) : GetoptData :=
  ⟨argv, 1, none, [], 1, 1⟩

/-- The test `argv[optind][0] != '-' || argv[optind][1] == '\0'`. -/
def NONOPTION_P (a : CStr) : Bool :=
  match a with
  | c :: _ :: _ => c != '-'
  | _ => true

/-- The loop `while (optind < argc && NONOPTION_P) optind++`, run over the
elements from `optind` on. -/
def skipNonoptions : List CStr → Nat → Nat
  | [], i => i
  | a :: rest, i => if NONOPTION_P a then skipNonoptions rest (i + 1) else i

/-- Net effect of the library routine `exchange`: the block of
non-options `[first_nonopt, last_nonopt)` and the block of options
`[last_nonopt, optind)` that follows it swap places, each keeping its order. -/
def exchange (d : GetoptData) : GetoptData :=
  { d with
    argv := d.argv.take d.first_nonopt
      ++ (d.argv.drop d.last_nonopt).take (d.optind - d.last_nonopt)
      ++ (d.argv.drop d.first_nonopt).take (d.last_nonopt - d.first_nonopt)
      ++ d.argv.drop d.optind
    first_nonopt := d.first_nonopt + (d.optind - d.last_nonopt)
    last_nonopt := d.optind }

/-- A long option has been matched: consume it and fetch its argument.
`rest` is what follows the name in the element (empty, or `=` and a value). -/
def consumeLong (d : GetoptData) (p : LongOption) (rest : CStr) : Int × GetoptData :=
  let d := { d with optind := d.optind + 1, nextchar := [] }
  match rest with
  | _ :: value =>
    if p.has_arg then (p.val.toNat, { d with optarg := some value })
    else (63, d)
  | [] =>
    if p.has_arg then
      match d.argv.drop d.optind with
      | a :: _ => (p.val.toNat, { d with optarg := some a, optind := d.optind + 1 })
      | [] => (63, d)
    else (p.val.toNat, d)

/-- The library routine `process_long_option` for an element `--name` or
`--name=value`; `body` is the element without its two dashes.  An exact match
of the name wins; otherwise the name may abbreviate exactly one row of the
table; no row or more than one gives `'?'`. -/
def process_long_option (d : GetoptData) (body : CStr) : Int × GetoptData :=
  let name := body.takeWhile (fun c => c != '=')
  let rest := body.dropWhile (fun c => c != '=')
  match long_options.find? (fun p => p.name == name) with
  | some p => consumeLong d p rest
  | none =>
    match long_options.filter (fun p => name.isPrefixOf p.name) with
    | [] => (63, { d with optind := d.optind + 1, nextchar := [] })
    | p :: more =>
      if more.any (fun q => q.has_arg != p.has_arg || q.val != p.val) then
        (63, { d with optind := d.optind + 1, nextchar := [] })
      else consumeLong d p rest

/-- The library call `strchr(optstring, c)`: the tail of `optstring` from the first `c` on. -/
def strchr : CStr → Char → Option CStr
  | [], _ => none
  | x :: xs, c => if x == c then some (x :: xs) else strchr xs c

/-- Handling of the next short-option character; `cluster` is what is left of
the current element.  `optind` moves on when the last character of the element
is taken.  A character outside `optstring` gives `'?'`; `g` takes the rest of
the element as its argument, or the next element, or gives `'?'` when there is
none. -/
def shortOption (d : GetoptData) (cluster : CStr) : Int × GetoptData :=
  match cluster with
  | [] => (63, d)
  | c :: cs =>
    let d := { d with nextchar := cs }
    let d := if cs = [] then { d with optind := d.optind + 1 } else d
    match strchr optstring c with
    | none => (63, d)
    | some temp =>
      if c == ':' || c == ';' then (63, d)
      else if temp.tail.head? == some ':' then
        if cs ≠ [] then
          (c.toNat, { d with optarg := some cs, optind := d.optind + 1, nextchar := [] })
        else
          match d.argv.drop d.optind with
          | [] => (63, { d with nextchar := [] })
          | a :: _ => (c.toNat, { d with optarg := some a, optind := d.optind + 1, nextchar := [] })
      else (c.toNat, d)

/-- Start of the move to the next element: `first_nonopt` and `last_nonopt`
are brought back to `optind` if the caller has moved `optind` below them. -/
def clampNonopts (d : GetoptData) : GetoptData :=
  let d := if d.last_nonopt > d.optind then { d with last_nonopt := d.optind } else d
  if d.first_nonopt > d.optind then { d with first_nonopt := d.optind } else d

/-- First half of the block run under the ordering `PERMUTE`: options just
processed that follow skipped non-options are exchanged with them; with nothing
to exchange, the skipped block restarts at `optind`. -/
def exchangeStage (d : GetoptData) : GetoptData :=
  if d.first_nonopt ≠ d.last_nonopt ∧ d.last_nonopt ≠ d.optind then exchange d
  else if d.last_nonopt ≠ d.optind then { d with first_nonopt := d.optind }
  else d

/-- The block run under the ordering `PERMUTE`: after the exchange, further
non-options are skipped and the skipped block is extended over them. -/
def permuteStage (d : GetoptData) : GetoptData :=
  let d := exchangeStage d
  let i := skipNonoptions (d.argv.drop d.optind) d.optind
  { d with optind := i, last_nonopt := i }

/-- The element `--` ends the options: it is skipped like an option, exchanged
with the non-options before it, and everything behind it counts as skipped
non-options. -/
def dashDashStage (argc : Nat) (d : GetoptData) : GetoptData :=
  if d.optind ≠ argc ∧ (d.argv.drop d.optind).head? = some "--".toList then
    let d := { d with optind := d.optind + 1 }
    let d :=
      if d.first_nonopt ≠ d.last_nonopt ∧ d.last_nonopt ≠ d.optind then exchange d
      else if d.first_nonopt = d.last_nonopt then { d with first_nonopt := d.optind }
      else d
    { d with last_nonopt := argc, optind := argc }
  else d

/-- An option element `a` at `optind`: `--name...` goes to
`process_long_option`, anything else is a cluster of short options behind the
dash. -/
def optionElement (d : GetoptData) (a : CStr) : Int × GetoptData :=
  match a with
  | _ :: '-' :: body => process_long_option d body
  | _ :: cluster => shortOption d cluster
  | [] => (63, d)

/-- What the call does with the element at `optind`: at the end of `argv` it
returns -1, with `optind` set back to the first skipped non-option if there is
one; at a non-option it returns -1 under `REQUIRE_ORDER`; otherwise the element
is an option. -/
def dispatch (posixly_correct : Bool) (d : GetoptData) : Int × GetoptData :=
  match d.argv.drop d.optind with
  | [] =>
    if d.first_nonopt ≠ d.last_nonopt then (-1, { d with optind := d.first_nonopt })
    else (-1, d)
  | a :: _ =>
    if NONOPTION_P a then
      if posixly_correct then (-1, d)
      else (1, { d with optarg := some a, optind := d.optind + 1 })
    else optionElement d a

/-- The part of the library call that moves on to the next element of `argv`.
Under the default ordering (`PERMUTE`) a non-option is never returned while an
option lies behind it: non-options are skipped, and at the end of `argv` the
call returns -1 with `optind` on the first skipped non-option.  Under
`REQUIRE_ORDER` (the environment variable `POSIXLY_CORRECT`) the call returns
-1 at the first non-option and leaves `optind` on it. -/
def advance (posixly_correct : Bool) (d : GetoptData) : Int × GetoptData :=
  let argc := d.argv.length
  let d := clampNonopts d
  let d := if posixly_correct then d else permuteStage d
  dispatch posixly_correct (dashDashStage argc d)

/-- The C library call `getopt_long` with the arguments `main` gives it, after
the GNU C library (`getopt(3)`): by default it permutes `argv` as it scans, so
that options are found behind non-options; with `POSIXLY_CORRECT` set it stops
at the first non-option.  The call returns the option character, `'?'` (63) for
an element it rejects, or -1 when it stops.  Its diagnostics on the error
stream are not recorded. -/
def getopt_long (posixly_correct : Bool) (d : GetoptData) : Int × GetoptData :=
  let d := { d with optarg := none }
  if d.argv.length < 1 then (-1, d)
  else if d.nextchar = [] then advance posixly_correct d
  else shortOption d d.nextchar

/-! ## The run of `main` -/

/-- What the run depends on outside the program text: the width of
`unsigned long`, the width of the unsigned field `Settings::values.gdbstub_port`
(declared in `core/settings.h`), and whether `POSIXLY_CORRECT` is set. -/
structure Env where
  ulong_bits : Nat
  port_bits : Nat
  posixly_correct : Bool
  deriving DecidableEq, Repr

/-- The members of `Settings::values` that `main` reads or writes. -/
structure Values where
  use_gdbstub : Bool
  gdbstub_port : Nat
  log_filter : CStr
  deriving DecidableEq, Repr

/-- Modelled from the spec: `Loader::ResultStatus` is declared in
`core/loader/loader.h`, outside this slice; the outcome of `loader->Load()` is
a success or a failure carrying a status code. -/
inductive ResultStatus
  | Success
  | Error (code : Nat)
  deriving DecidableEq, Repr

/-- The answers of the collaborators during one run, taken as parameters.
`initStatus` is what `System::Init` reports (its declaration is in
`core/system.h`, outside this slice; the spec gives `init(displaySurfaceRef) ->
status`; 0 stands for no error); `getLoader path` tells whether
`Loader::GetLoader` returns a loader for the path; `load` is the result of
`Load`; `isOpen i` is the answer to the `i`-th `IsOpen` query, counted from 0. -/
structure Collaborators where
  initStatus : Nat
  getLoader : CStr → Bool
  load : ResultStatus
  isOpen : Nat → Bool

/-- The calls `main` makes into its collaborators, and the destructors and
scope-exit actions that run when it returns.  `SystemInit` and `IsOpen` carry
what the collaborator answered. -/
inductive Event
  | ConfigCtor
  | ConfigDtor
  | PrintHelp (argv0 : CStr)
  | PrintVersion
  | Perror
  | LogSetFilter
  | MicroProfileOnThreadCreate
  | MicroProfileShutdown
  | LogNoRomSpecified
  | LogNoLoader (path : CStr)
  | LogLoadError (status : ResultStatus)
  | ParseFilterString (expr : CStr)
  | SettingsApply (v : Values)
  | EmuWindowCtor
  | EmuWindowDtor
  | SystemInit (status : Nat)
  | SystemShutdown
  | GetLoader (path : CStr)
  | Load
  | LoaderDtor
  | IsOpen (answer : Bool)
  | RunLoop
  deriving DecidableEq, Repr

/-- The locals of `main` that the argument scan updates. -/
structure ScanState where
  d : GetoptData
  use_gdbstub : Bool
  gdb_port : Nat
  boot_filename : CStr
  deriving DecidableEq, Repr

/-- How the argument scan ends. -/
inductive ScanExit
  | help (argv0 : CStr)
  | version
  | badPort
  | nullBootPath
  | done (use_gdbstub : Bool) (gdb_port : Nat) (boot_filename : CStr)
  deriving DecidableEq, Repr

/-- The loop `while (optind < argc)` of `main`, with `char` signed and
`boot_filename = argv[optind]` (the branch for compilers other than MinGW-w64).
For `g` the value goes through `strtoul`; the process exits when no digit was
consumed or `errno` is set.  `h` and `v` leave `main`.  Any other option
character is ignored.  On -1 the element at `optind` becomes the boot file
name and `optind` moves on; when the call has stopped at `optind == argc` (a
closing `--`), that element is the null pointer `argv[argc]` and the
assignment to the `std::string` is undefined.  `none`: the loop is still
running when the fuel is used up. -/
def scanLoop (env : Env) : Nat → ScanState → Option ScanExit
  | fuel, s =>
    if s.d.optind < s.d.argv.length then
      match fuel with
      | 0 => none
      | fuel + 1 =>
        let r := getopt_long env.posixly_correct s.d
        if r.1 ≠ -1 then
          if r.1 = 103 then
            let p := strtoul env.ulong_bits (r.2.optarg.getD [])
            if p.endOffset = 0 ∨ p.erange = true then some ScanExit.badPort
            else scanLoop env fuel
              { s with d := r.2, gdb_port := p.value % 2 ^ 32, use_gdbstub := true }
          else if r.1 = 104 then some (ScanExit.help (r.2.argv.headD []))
          else if r.1 = 118 then some ScanExit.version
          else scanLoop env fuel { s with d := r.2 }
        else
          match r.2.argv.drop r.2.optind with
          | [] => some ScanExit.nullBootPath
          | a :: _ =>
            scanLoop env fuel
              { s with d := { r.2 with optind := r.2.optind + 1 }, boot_filename := a }
    else some (ScanExit.done s.use_gdbstub s.gdb_port s.boot_filename)

/-- The argument scan of `main` from the initial values of its locals. -/
def scan (env : Env) (fuel : Nat) (argv : List CStr) (persisted : Values) : Option ScanExit :=
  scanLoop env fuel
    ⟨GetoptData.init argv, persisted.use_gdbstub, persisted.gdbstub_port % 2 ^ 32, []⟩

/-- The loop `while (emu_window->IsOpen()) Core::RunLoop();` from the `i`-th
query on: the events of the loop, and whether the loop was left before the
fuel was used up. -/
def runLoop (isOpen : Nat → Bool) : Nat → Nat → List Event × Bool
  | 0, _ => ([], false)
  | fuel + 1, i =>
    if isOpen i then
      let r := runLoop isOpen fuel (i + 1)
      (Event.IsOpen true :: Event.RunLoop :: r.1, r.2)
    else ([Event.IsOpen false], true)

/-- What is observed of a run that leaves `main`: the exit status, the trace,
and `Settings::values` at the end. -/
structure Outcome where
  exit : Int
  trace : List Event
  settings : Values
  deriving DecidableEq, Repr

/-- A run leaves `main`, or runs into undefined behaviour, or is still in the
run loop when the fuel is used up; `running` holds the trace so far and
`Settings::values`. -/
inductive Run
  | exited (o : Outcome)
  | undefined
  | running (trace : List Event) (settings : Values)
  deriving DecidableEq, Repr

/-- The trace of a run as far as it is defined. -/
def Run.trace : Run → List Event
  | Run.exited o => o.trace
  | Run.undefined => []
  | Run.running t _ => t

/-- The function `main`.  `persisted` is `Settings::values` as the constructor
of `Config` leaves it.  The trace lists the collaborator calls in program order
followed by the destructors and scope-exit actions of the locals alive at the
`return`, in reverse order of declaration; `exit(1)` runs none of them.  The
value `System::Init` reports is recorded in the trace and not read.  `none`:
the argument scan is still running when the fuel is used up. -/
def main (env : Env) (argv : List CStr) (persisted : Values) (c : Collaborators)
    (fuel : Nat) : Option Run :=
  match scan env fuel argv persisted with
  | none => none
  | some ScanExit.nullBootPath => some Run.undefined
  | some (ScanExit.help argv0) =>
    some (Run.exited ⟨0, [Event.ConfigCtor, Event.PrintHelp argv0, Event.ConfigDtor], persisted⟩)
  | some ScanExit.version =>
    some (Run.exited ⟨0, [Event.ConfigCtor, Event.PrintVersion, Event.ConfigDtor], persisted⟩)
  | some ScanExit.badPort =>
    some (Run.exited ⟨1, [Event.ConfigCtor, Event.Perror], persisted⟩)
  | some (ScanExit.done use_gdbstub gdb_port boot_filename) =>
    let pre := [Event.ConfigCtor, Event.LogSetFilter, Event.MicroProfileOnThreadCreate]
    if boot_filename = [] then
      some (Run.exited ⟨-1,
        pre ++ [Event.LogNoRomSpecified, Event.MicroProfileShutdown, Event.ConfigDtor],
        persisted⟩)
    else
      let values : Values :=
        { persisted with
          gdbstub_port := gdb_port % 2 ^ env.port_bits
          use_gdbstub := use_gdbstub }
      let acquired := pre ++
        [Event.ParseFilterString persisted.log_filter, Event.SettingsApply values,
         Event.EmuWindowCtor, Event.SystemInit c.initStatus, Event.GetLoader boot_filename]
      let release :=
        [Event.SystemShutdown, Event.EmuWindowDtor, Event.MicroProfileShutdown, Event.ConfigDtor]
      if c.getLoader boot_filename then
        match c.load with
        | ResultStatus.Success =>
          let loop := runLoop c.isOpen fuel 0
          if loop.2 then
            some (Run.exited
              ⟨0, acquired ++ Event.Load :: loop.1 ++ Event.LoaderDtor :: release, values⟩)
          else some (Run.running (acquired ++ Event.Load :: loop.1) values)
        | ResultStatus.Error code =>
          some (Run.exited ⟨-1, acquired ++ [Event.Load,
            Event.LogLoadError (ResultStatus.Error code), Event.LoaderDtor] ++ release, values⟩)
      else
        some (Run.exited ⟨-1, acquired ++ Event.LogNoLoader boot_filename :: release, values⟩)

/-! ## Command lines built from items, and what a scan in order yields -/

/-- The four spellings of the debug-port option. -/
inductive GdbForm
  | shortSep
  | shortJoined
  | longSep
  | longEq
  deriving DecidableEq, Repr

/-- The elements of `argv` that spell the debug-port option with value `v`:
`-g v`, `-gv`, `--gdbport v`, `--gdbport=v`. -/
def renderGdb : GdbForm → CStr → List CStr
  | GdbForm.shortSep, v => ["-g".toList, v]
  | GdbForm.shortJoined, v => ['-' :: 'g' :: v]
  | GdbForm.longSep, v => ["--gdbport".toList, v]
  | GdbForm.longEq, v => ["--gdbport=".toList ++ v]

/-- A piece of a command line: a non-option token or a debug-port option. -/
inductive Item
  | positional (tok : CStr)
  | gdbport (form : GdbForm) (value : CStr)
  deriving DecidableEq, Repr

/-- The elements of `argv` an item stands for. -/
def Item.render : Item → List CStr
  | Item.positional tok => [tok]
  | Item.gdbport form v => renderGdb form v

/-- The elements of `argv` a list of items stands for. -/
def renderItems : List Item → List CStr
  | [] => []
  | it :: rest => it.render ++ renderItems rest

/-- The value passes the checks of `case 'g'`: `strtoul` consumed a digit and
did not report `ERANGE`. -/
def parses (ulong_bits : Nat) (v : CStr) : Bool :=
  decide ((strtoul ulong_bits v).endOffset ≠ 0) && !(strtoul ulong_bits v).erange

/-- A non-option token is one the scanner takes for a non-option; a
debug-port option is valid when its value parses (the joined short form needs
a non-empty value to be that form at all). -/
def Item.valid (ulong_bits : Nat) : Item → Bool
  | Item.positional tok => NONOPTION_P tok
  | Item.gdbport form v => parses ulong_bits v && (form != GdbForm.shortJoined || v != [])

/-- Every item of the list is valid. -/
def validItems (ulong_bits : Nat) (items : List Item) : Bool :=
  items.all (Item.valid ulong_bits)

/-- The scanner stands between two elements: no cluster is pending, the
elements from `optind` on are `rest`, element 0 is `prog`, and the block of
skipped non-options lies below `optind`. -/
structure Aligned (d : GetoptData) (prog : CStr) (rest : List CStr) : Prop where
  nextchar : d.nextchar = []
  suffix : d.argv.drop d.optind = rest
  argv0 : d.argv.head? = some prog
  first_pos : 1 ≤ d.first_nonopt
  first_le : d.first_nonopt ≤ d.last_nonopt
  last_le : d.last_nonopt ≤ d.optind
  optind_le : d.optind ≤ d.argv.length

/-- The scanner state a call works on once it has moved to the element at
`optind`, when that element is an option. -/
def settle (posixly_correct : Bool) (d : GetoptData) : GetoptData :=
  if posixly_correct then d else permuteStage d

/-- The two spellings of the help option. -/
def isHelpToken (t : CStr) : Bool := t == "-h".toList || t == "--help".toList

/-- The two spellings of the version option. -/
def isVersionToken (t : CStr) : Bool := t == "-v".toList || t == "--version".toList

/-- The values of the debug-port options of a command line, in order. -/
def gdbValues : List Item → List CStr
  | [] => []
  | Item.positional _ :: rest => gdbValues rest
  | Item.gdbport _ v :: rest => v :: gdbValues rest

/-- The non-option tokens of a command line, in order. -/
def positionals : List Item → List CStr
  | [] => []
  | Item.positional p :: rest => p :: positionals rest
  | Item.gdbport _ _ :: rest => positionals rest

/-- The command line has the shape of the usage line `[options] <filename>`:
options first, then at most one non-option token. -/
def optionsFirst : List Item → Bool
  | [] => true
  | [Item.positional _] => true
  | Item.positional _ :: _ :: _ => false
  | Item.gdbport _ _ :: rest => optionsFirst rest

/-- The local `use_gdbstub` after a scan of the items in order: set once a debug-port
option has been seen. -/
def scannedUse (use0 : Bool) (items : List Item) : Bool :=
  use0 || !(gdbValues items).isEmpty

/-- The local `gdb_port` after a scan of the items in order: the value of the last
debug-port option, as `strtoul` converts it and `u32` holds it. -/
def scannedPort (ulong_bits : Nat) (port0 : Nat) (items : List Item) : Nat :=
  match (gdbValues items).getLast? with
  | some v => (strtoul ulong_bits v).value % 2 ^ 32
  | none => port0

/-- The local `boot_filename` after a scan of the items in order: the last
non-option token. -/
def scannedBoot (boot0 : CStr) (items : List Item) : CStr :=
  ((positionals items).getLast?).getD boot0

/-- The command line can be scanned in order: the ordering is `REQUIRE_ORDER`,
or the options come first and at most one non-option token follows. -/
def scannable (env : Env) (items : List Item) : Bool :=
  env.posixly_correct || optionsFirst items

/-- The first `closed` answer of the display surface is the one to query `n`. -/
def firstClosedAt (isOpen : Nat → Bool) (n : Nat) : Bool :=
  (List.range n).all isOpen && !isOpen n

/-- The events of a run loop that sees `n` answers `open` and then `closed`. -/
def loopTrace (n : Nat) : List Event :=
  (List.replicate n [Event.IsOpen true, Event.RunLoop]).flatten ++ [Event.IsOpen false]

/-- The events between engine initialisation and teardown: loader and run-loop
calls, the destructor of the loader, and the log lines for a failed load. -/
def Event.inSession : Event → Bool
  | Event.GetLoader _ => true
  | Event.Load => true
  | Event.LoaderDtor => true
  | Event.IsOpen _ => true
  | Event.RunLoop => true
  | Event.LogNoLoader _ => true
  | Event.LogLoadError _ => true
  | _ => false

/-- The record `Settings::values` after the lines that apply the command-line
arguments. -/
def appliedValues (env : Env) (persisted : Values) (use_gdbstub : Bool) (gdb_port : Nat) :
    Values :=
  { persisted with gdbstub_port := gdb_port % 2 ^ env.port_bits, use_gdbstub := use_gdbstub }

/-- Every `RunLoop` event of the list comes right behind an `IsOpen` event
that answered `open`; `prev` is the event in front of the list. -/
def guardedFrom : Option Event → List Event → Bool
  | _, [] => true
  | prev, e :: rest =>
    (e != Event.RunLoop || prev == some (Event.IsOpen true)) && guardedFrom (some e) rest

/-- The event is the apply step `Settings::Apply()`. -/
def Event.isSettingsApply : Event → Bool
  | Event.SettingsApply _ => true
  | _ => false

/-- The event is a request for a loader. -/
def Event.isGetLoader : Event → Bool
  | Event.GetLoader _ => true
  | _ => false

theorem drop_eq_cons_lt {α : Type} {l : List α} {n : Nat} {a : α} {rest : List α}
    (h : l.drop n = a :: rest) : n < l.length := by
  by_contra hn
  rw [List.drop_eq_nil_of_le (by omega)] at h
  cases h

theorem drop_succ_of_drop_eq_cons {α : Type} {l : List α} {n : Nat} {a : α} {rest : List α}
    (h : l.drop n = a :: rest) : l.drop (n + 1) = rest := by
  have : l.drop (n + 1) = (l.drop n).drop 1 := by rw [List.drop_drop]
  rw [this, h]; rfl

theorem exchange_length (d : GetoptData) (h1 : d.first_nonopt ≤ d.last_nonopt)
    (h2 : d.last_nonopt ≤ d.optind) (h3 : d.optind ≤ d.argv.length) :
    (exchange d).argv.length = d.argv.length := by
  simp only [exchange, List.length_append, List.length_take, List.length_drop]
  omega

theorem exchange_drop (d : GetoptData) (h1 : d.first_nonopt ≤ d.last_nonopt)
    (h2 : d.last_nonopt ≤ d.optind) (h3 : d.optind ≤ d.argv.length) :
    (exchange d).argv.drop d.optind = d.argv.drop d.optind := by
  simp only [exchange]
  apply List.drop_left'
  simp only [List.length_append, List.length_take, List.length_drop]
  omega

theorem exchange_head (d : GetoptData) (h0 : 1 ≤ d.first_nonopt) :
    (exchange d).argv.head? = d.argv.head? := by
  simp only [exchange]
  cases hd : d.argv with
  | nil => simp
  | cons a l =>
    obtain ⟨k, hk⟩ : ∃ k, d.first_nonopt = k + 1 := ⟨d.first_nonopt - 1, by omega⟩
    simp [hk]

/-! ## A call of `getopt_long` that stands before an option -/

theorem exchange_optind (d : GetoptData) : (exchange d).optind = d.optind := rfl

theorem clampNonopts_aligned {d : GetoptData} {prog : CStr} {rest : List CStr}
    (h : Aligned d prog rest) : clampNonopts d = d := by
  obtain ⟨h1, h2, h3, h4, h5, h6, h7⟩ := h
  simp [clampNonopts, not_lt.2 h6, not_lt.2 (le_trans h5 h6)]

theorem dashDashStage_other {d : GetoptData} {argc : Nat} {a : CStr} {rest : List CStr}
    (h : d.argv.drop d.optind = a :: rest) (hdd : a ≠ ['-', '-']) :
    dashDashStage argc d = d := by
  simp [dashDashStage, h, hdd]

theorem dashDashStage_end {d : GetoptData} {argc : Nat}
    (h : d.argv.drop d.optind = []) : dashDashStage argc d = d := by
  simp [dashDashStage, h]

theorem exchangeStage_spec {d : GetoptData} {prog : CStr} {rest : List CStr}
    (h : Aligned d prog rest) :
    (exchangeStage d).nextchar = [] ∧ (exchangeStage d).argv.drop d.optind = rest
      ∧ (exchangeStage d).argv.head? = some prog
      ∧ 1 ≤ (exchangeStage d).first_nonopt ∧ (exchangeStage d).first_nonopt ≤ d.optind
      ∧ (exchangeStage d).optind = d.optind
      ∧ (exchangeStage d).argv.length = d.argv.length
      ∧ (exchangeStage d).optarg = d.optarg
      ∧ (d.first_nonopt = d.last_nonopt →
          (exchangeStage d).first_nonopt = d.optind ∧ (exchangeStage d).argv = d.argv) := by
  obtain ⟨h1, h2, h3, h4, h5, h6, h7⟩ := h
  unfold exchangeStage
  by_cases c1 : d.first_nonopt ≠ d.last_nonopt ∧ d.last_nonopt ≠ d.optind
  · rw [if_pos c1]
    refine ⟨h1, ?_, ?_, ?_, ?_, rfl, ?_, rfl, ?_⟩
    · rw [exchange_drop d h5 h6 h7, h2]
    · exact (exchange_head d h4).trans h3
    · simp only [exchange]; omega
    · simp only [exchange]; omega
    · exact exchange_length d h5 h6 h7
    · intro hf; exact absurd hf c1.1
  · rw [if_neg c1]
    by_cases c2 : d.last_nonopt ≠ d.optind
    · rw [if_pos c2]
      exact ⟨h1, h2, h3, le_trans h4 (le_trans h5 h6), le_refl _, rfl, rfl, rfl,
        fun _ => ⟨rfl, rfl⟩⟩
    · rw [if_neg c2]
      have c2' : d.last_nonopt = d.optind := by simpa using c2
      exact ⟨h1, h2, h3, h4, le_trans h5 h6, rfl, rfl, rfl, fun hf => ⟨hf.trans c2', rfl⟩⟩

theorem permuteStage_aligned {d : GetoptData} {prog a : CStr} {rest : List CStr}
    (h : Aligned d prog (a :: rest)) (hopt : NONOPTION_P a = false) :
    Aligned (permuteStage d) prog (a :: rest) ∧ (permuteStage d).optind = d.optind
      ∧ (permuteStage d).argv.length = d.argv.length
      ∧ (permuteStage d).optarg = d.optarg
      ∧ (d.first_nonopt = d.last_nonopt →
          (permuteStage d).first_nonopt = (permuteStage d).last_nonopt) := by
  obtain ⟨e1, e2, e3, e4, e5, ho, hl, ha, hf⟩ := exchangeStage_spec h
  have hs : skipNonoptions ((exchangeStage d).argv.drop (exchangeStage d).optind)
      (exchangeStage d).optind = d.optind := by
    rw [ho, e2]; simp [skipNonoptions, hopt]
  have h7 := h.optind_le
  have key : permuteStage d =
      { exchangeStage d with optind := d.optind, last_nonopt := d.optind } := by
    unfold permuteStage
    simp only [hs]
  rw [key]
  refine ⟨⟨e1, e2, e3, e4, e5, le_refl _, ?_⟩, rfl, hl, ha, ?_⟩
  · show d.optind ≤ (exchangeStage d).argv.length
    omega
  · intro hfr
    exact (hf hfr).1

theorem settle_spec (pc : Bool) {d : GetoptData} {prog a : CStr} {rest : List CStr}
    (h : Aligned d prog (a :: rest)) (hopt : NONOPTION_P a = false) :
    Aligned (settle pc d) prog (a :: rest) ∧ (settle pc d).optind = d.optind
      ∧ (settle pc d).argv.length = d.argv.length
      ∧ (settle pc d).optarg = d.optarg
      ∧ (d.first_nonopt = d.last_nonopt →
          (settle pc d).first_nonopt = (settle pc d).last_nonopt) := by
  cases pc with
  | true => exact ⟨h, rfl, rfl, rfl, fun hf => hf⟩
  | false => exact permuteStage_aligned h hopt

theorem advance_option (pc : Bool) {d : GetoptData} {prog a : CStr}
    {rest : List CStr} (h : Aligned d prog (a :: rest)) (hopt : NONOPTION_P a = false)
    (hdd : a ≠ ['-', '-']) :
    advance pc d = optionElement (settle pc d) a := by
  obtain ⟨hs, -, -, -, -⟩ := settle_spec pc h hopt
  have hsuf := hs.suffix
  have e : advance pc d = dispatch pc (settle pc d) := by
    unfold advance
    simp only [clampNonopts_aligned h]
    have : (if pc = true then d else permuteStage d) = settle pc d := rfl
    rw [this, dashDashStage_other hsuf hdd]
  rw [e]
  unfold dispatch
  rw [hsuf]
  simp only [hopt, Bool.false_eq_true, if_false]

theorem getopt_long_option (pc : Bool) {d : GetoptData} {prog a : CStr}
    {rest : List CStr} (h : Aligned d prog (a :: rest)) (hopt : NONOPTION_P a = false)
    (hdd : a ≠ ['-', '-']) :
    ∃ d', getopt_long pc d = optionElement d' a ∧ Aligned d' prog (a :: rest)
      ∧ d'.optarg = none
      ∧ (d.first_nonopt = d.last_nonopt → d'.first_nonopt = d'.last_nonopt) := by
  obtain ⟨argv, optind, optarg, nextchar, first, last⟩ := d
  have hn : nextchar = [] := h.nextchar
  subst hn
  have h' : Aligned ⟨argv, optind, none, [], first, last⟩ prog (a :: rest) :=
    ⟨rfl, h.suffix, h.argv0, h.first_pos, h.first_le, h.last_le, h.optind_le⟩
  obtain ⟨hs, -, -, ha, hf⟩ := settle_spec pc h' hopt
  refine ⟨settle pc ⟨argv, optind, none, [], first, last⟩, ?_, hs, ha, hf⟩
  have hlen : ¬ argv.length < 1 := by
    have := drop_eq_cons_lt h.suffix
    simp only at this
    omega
  unfold getopt_long
  simp only [hlen, if_false, if_true]
  exact advance_option pc h' hopt hdd

theorem aligned_skip1 {d : GetoptData} {prog a : CStr} {rest : List CStr} (oa : Option CStr)
    (h : Aligned d prog (a :: rest)) :
    Aligned { d with optind := d.optind + 1, optarg := oa, nextchar := [] } prog rest :=
  ⟨rfl, drop_succ_of_drop_eq_cons h.suffix, h.argv0, h.first_pos, h.first_le,
    le_trans h.last_le (Nat.le_succ _), drop_eq_cons_lt h.suffix⟩

theorem aligned_skip2 {d : GetoptData} {prog a b : CStr} {rest : List CStr} (oa : Option CStr)
    (h : Aligned d prog (a :: b :: rest)) :
    Aligned { d with optind := d.optind + 1 + 1, optarg := oa, nextchar := [] } prog rest :=
  aligned_skip1 oa (aligned_skip1 oa h)

/-- A call standing before a debug-port option returns `g` with the value in
`optarg` and stands behind the option afterwards, under either ordering. -/
theorem getopt_long_gdb (pc : Bool) {d : GetoptData} {prog : CStr} (form : GdbForm) (v : CStr)
    {rest : List CStr} (h : Aligned d prog (renderGdb form v ++ rest))
    (hv : form = GdbForm.shortJoined → v ≠ []) :
    ∃ d', getopt_long pc d = (103, d') ∧ d'.optarg = some v ∧ Aligned d' prog rest
      ∧ (d.first_nonopt = d.last_nonopt → d'.first_nonopt = d'.last_nonopt) := by
  cases form with
  | shortSep =>
    have h' : Aligned d prog (['-', 'g'] :: v :: rest) := h
    obtain ⟨e, he, hal, -, hfr⟩ := getopt_long_option pc h' (by simp [NONOPTION_P])
      (by simp)
    have h1 := drop_succ_of_drop_eq_cons hal.suffix
    refine ⟨{ e with optind := e.optind + 1 + 1, optarg := some v, nextchar := [] }, ?_, rfl,
      aligned_skip2 _ hal, hfr⟩
    rw [he]
    simp [optionElement, shortOption, optstring, strchr, h1]
  | shortJoined =>
    have h' : Aligned d prog (('-' :: 'g' :: v) :: rest) := h
    have hv' := hv rfl
    obtain ⟨e, he, hal, -, hfr⟩ := getopt_long_option pc h' (by simp [NONOPTION_P])
      (by simp)
    refine ⟨{ e with optind := e.optind + 1, optarg := some v, nextchar := [] }, ?_, rfl,
      aligned_skip1 _ hal, hfr⟩
    rw [he]
    simp [optionElement, shortOption, optstring, strchr, hv']
  | longSep =>
    have h' : Aligned d prog ("--gdbport".toList :: v :: rest) := h
    obtain ⟨e, he, hal, -, hfr⟩ := getopt_long_option pc h' (by simp [NONOPTION_P])
      (by simp)
    have h1 := drop_succ_of_drop_eq_cons hal.suffix
    refine ⟨{ e with optind := e.optind + 1 + 1, optarg := some v, nextchar := [] }, ?_, rfl,
      aligned_skip2 _ hal, hfr⟩
    rw [he]
    simp [optionElement, process_long_option, long_options, consumeLong, h1]
  | longEq =>
    have h' : Aligned d prog (("--gdbport=".toList ++ v) :: rest) := h
    obtain ⟨e, he, hal, -, hfr⟩ := getopt_long_option pc h' (by simp [NONOPTION_P])
      (by simp)
    refine ⟨{ e with optind := e.optind + 1, optarg := some v, nextchar := [] }, ?_, rfl,
      aligned_skip1 _ hal, hfr⟩
    rw [he]
    simp [optionElement, process_long_option, long_options, consumeLong]

/-- A call standing before a help option returns `h`; `argv[0]` is still the
program name. -/
theorem getopt_long_help (pc : Bool) {d : GetoptData} {prog t : CStr}
    {rest : List CStr} (h : Aligned d prog (t :: rest)) (ht : isHelpToken t = true) :
    ∃ d', getopt_long pc d = (104, d') ∧ d'.argv.headD [] = prog := by
  have hp : ∀ e : GetoptData, e.argv.head? = some prog → e.argv.headD [] = prog := by
    intro e he
    cases hl : e.argv with
    | nil => simp [hl] at he
    | cons x xs => simpa [hl] using he
  simp only [isHelpToken, Bool.or_eq_true, beq_iff_eq] at ht
  rcases ht with rfl | rfl
  · obtain ⟨e, he, hal, -, -⟩ := getopt_long_option pc h (by simp [NONOPTION_P])
      (by simp)
    refine ⟨{ e with optind := e.optind + 1, nextchar := [] }, ?_, hp e hal.argv0⟩
    rw [he]
    simp [optionElement, shortOption, optstring, strchr]
  · obtain ⟨e, he, hal, -, -⟩ := getopt_long_option pc h (by simp [NONOPTION_P])
      (by simp)
    refine ⟨{ e with optind := e.optind + 1, nextchar := [] }, ?_, hp e hal.argv0⟩
    rw [he]
    simp [optionElement, process_long_option, long_options, consumeLong]

/-- A call standing before a version option returns `v`. -/
theorem getopt_long_version (pc : Bool) {d : GetoptData} {prog t : CStr}
    {rest : List CStr} (h : Aligned d prog (t :: rest)) (ht : isVersionToken t = true) :
    ∃ d', getopt_long pc d = (118, d') := by
  simp only [isVersionToken, Bool.or_eq_true, beq_iff_eq] at ht
  rcases ht with rfl | rfl
  · obtain ⟨e, he, hal, -, -⟩ := getopt_long_option pc h (by simp [NONOPTION_P])
      (by simp)
    refine ⟨{ e with optind := e.optind + 1, nextchar := [] }, ?_⟩
    rw [he]
    simp [optionElement, shortOption, optstring, strchr]
  · obtain ⟨e, he, hal, -, -⟩ := getopt_long_option pc h (by simp [NONOPTION_P])
      (by simp)
    refine ⟨{ e with optind := e.optind + 1, nextchar := [] }, ?_⟩
    rw [he]
    simp [optionElement, process_long_option, long_options, consumeLong]

/-! ## A call of `getopt_long` that stands before a non-option -/

theorem nonoption_ne_dashdash {p : CStr} (hp : NONOPTION_P p = true) : p ≠ ['-', '-'] := by
  rintro rfl
  simp [NONOPTION_P] at hp

/-- Under `REQUIRE_ORDER` a call standing before a non-option returns -1 and
leaves `optind` on it. -/
theorem getopt_long_positional_posix {d : GetoptData} {prog p : CStr} {rest : List CStr}
    (h : Aligned d prog (p :: rest)) (hp : NONOPTION_P p = true) :
    getopt_long true d = (-1, { d with optarg := none }) := by
  obtain ⟨argv, optind, optarg, nextchar, first, last⟩ := d
  have hn : nextchar = [] := h.nextchar
  subst hn
  have h' : Aligned ⟨argv, optind, none, [], first, last⟩ prog (p :: rest) :=
    ⟨rfl, h.suffix, h.argv0, h.first_pos, h.first_le, h.last_le, h.optind_le⟩
  have hlen : ¬ argv.length < 1 := by
    have := drop_eq_cons_lt h.suffix
    simp only at this
    omega
  unfold getopt_long
  simp only [hlen, if_false, if_true]
  unfold advance
  simp only [clampNonopts_aligned h', if_true]
  rw [dashDashStage_other h'.suffix (nonoption_ne_dashdash hp)]
  unfold dispatch
  rw [h'.suffix]
  simp only [hp, if_true]

/-- Under `PERMUTE` a call standing before a non-option does what a call does
that stands behind it with the non-option counted as skipped. -/
theorem getopt_long_positional_permute {d : GetoptData} {prog p : CStr} {rest : List CStr}
    (h : Aligned d prog (p :: rest)) (hp : NONOPTION_P p = true) :
    ∃ d', Aligned d' prog rest ∧ getopt_long false d = getopt_long false d' := by
  obtain ⟨argv, optind, optarg, nextchar, first, last⟩ := d
  have hn : nextchar = [] := h.nextchar
  subst hn
  have h' : Aligned ⟨argv, optind, none, [], first, last⟩ prog (p :: rest) :=
    ⟨rfl, h.suffix, h.argv0, h.first_pos, h.first_le, h.last_le, h.optind_le⟩
  have hlt : optind < argv.length := by
    have := drop_eq_cons_lt h.suffix
    simpa using this
  obtain ⟨e1, e2, e3, e4, e5, ho, hl, ha, -⟩ := exchangeStage_spec h'
  have hperm : permuteStage ⟨argv, optind, none, [], first, last⟩ =
      permuteStage (exchangeStage ⟨argv, optind, none, [], first, last⟩) → True := fun _ => trivial
  clear hperm
  have hp0 : ∀ E : GetoptData, exchangeStage ⟨argv, optind, none, [], first, last⟩ = E →
      permuteStage ⟨argv, optind, none, [], first, last⟩ =
        { E with optind := skipNonoptions (E.argv.drop E.optind) E.optind,
                 last_nonopt := skipNonoptions (E.argv.drop E.optind) E.optind } := by
    intro E hE
    unfold permuteStage
    rw [hE]
  generalize hE : exchangeStage ⟨argv, optind, none, [], first, last⟩ = E at *
  obtain ⟨Eargv, Eoptind, Eoptarg, Enext, Efirst, Elast⟩ := E
  simp only at e1 e2 e3 e4 e5 ho hl ha
  subst e1 ho ha
  have hal : Aligned ⟨Eargv, Eoptind + 1, none, [], Efirst, Eoptind + 1⟩ prog rest :=
    ⟨rfl, drop_succ_of_drop_eq_cons e2, e3, e4, by simp only; omega, le_refl _,
      by simp only; omega⟩
  refine ⟨⟨Eargv, Eoptind + 1, none, [], Efirst, Eoptind + 1⟩, hal, ?_⟩
  have hlen : ¬ argv.length < 1 := by omega
  have hlen' : ¬ Eargv.length < 1 := by omega
  unfold getopt_long
  simp only [hlen, hlen', if_false, if_true]
  unfold advance
  simp only [clampNonopts_aligned h', clampNonopts_aligned hal, Bool.false_eq_true, if_false]
  rw [hp0 _ rfl, hl]
  congr 2
  unfold permuteStage
  simp [exchangeStage, e2, skipNonoptions, hp, drop_succ_of_drop_eq_cons e2]

/-- Under `PERMUTE`, with nothing skipped so far, a call standing before a
single last non-option returns -1 and leaves `optind` on it. -/
theorem getopt_long_last_positional_permute {d : GetoptData} {prog p : CStr}
    (h : Aligned d prog [p]) (hp : NONOPTION_P p = true)
    (hf : d.first_nonopt = d.last_nonopt) :
    ∃ d', getopt_long false d = (-1, d') ∧ d'.optind = d.optind ∧ d'.argv = d.argv := by
  obtain ⟨argv, optind, optarg, nextchar, first, last⟩ := d
  have hn : nextchar = [] := h.nextchar
  subst hn
  have h' : Aligned ⟨argv, optind, none, [], first, last⟩ prog [p] :=
    ⟨rfl, h.suffix, h.argv0, h.first_pos, h.first_le, h.last_le, h.optind_le⟩
  have hlt : optind < argv.length := by
    have := drop_eq_cons_lt h.suffix
    simpa using this
  obtain ⟨e1, e2, e3, e4, e5, ho, hl, ha, hfr⟩ := exchangeStage_spec h'
  obtain ⟨hf1, hf2⟩ := hfr hf
  have hp0 : ∀ E : GetoptData, exchangeStage ⟨argv, optind, none, [], first, last⟩ = E →
      permuteStage ⟨argv, optind, none, [], first, last⟩ =
        { E with optind := skipNonoptions (E.argv.drop E.optind) E.optind,
                 last_nonopt := skipNonoptions (E.argv.drop E.optind) E.optind } := by
    intro E hE
    unfold permuteStage
    rw [hE]
  generalize hE : exchangeStage ⟨argv, optind, none, [], first, last⟩ = E at *
  obtain ⟨Eargv, Eoptind, Eoptarg, Enext, Efirst, Elast⟩ := E
  simp only at e1 e2 e3 e4 e5 ho hl ha hf1 hf2
  subst e1 ho ha hf1 hf2
  have hend : Eargv.drop (Efirst + 1) = [] := drop_succ_of_drop_eq_cons e2
  refine ⟨⟨Eargv, Efirst, none, [], Efirst, Efirst + 1⟩, ?_, rfl, rfl⟩
  have hlen : ¬ Eargv.length < 1 := by omega
  unfold getopt_long
  simp only [hlen, if_false, if_true]
  unfold advance
  simp only [clampNonopts_aligned h', Bool.false_eq_true, if_false]
  rw [hp0 _ rfl]
  simp only [e2, skipNonoptions, hp, if_true]
  rw [dashDashStage_end hend]
  unfold dispatch
  simp [hend]

/-! ## Rounds of the scan loop -/

theorem scanLoop_done {env : Env} {fuel : Nat} {s : ScanState}
    (h : ¬ s.d.optind < s.d.argv.length) :
    scanLoop env fuel s = some (ScanExit.done s.use_gdbstub s.gdb_port s.boot_filename) := by
  cases fuel <;> (unfold scanLoop; simp only [h, if_false])

theorem scanLoop_g {env : Env} {fuel : Nat} {s : ScanState} {d' : GetoptData} {v : CStr}
    (h : s.d.optind < s.d.argv.length)
    (hg : getopt_long env.posixly_correct s.d = (103, d')) (ha : d'.optarg = some v)
    (hv : parses env.ulong_bits v = true) :
    scanLoop env (fuel + 1) s = scanLoop env fuel
      { s with d := d', gdb_port := (strtoul env.ulong_bits v).value % 2 ^ 32,
               use_gdbstub := true } := by
  simp only [parses, Bool.and_eq_true, decide_eq_true_eq, Bool.not_eq_true'] at hv
  conv_lhs => unfold scanLoop
  simp [h, hg, ha, hv.1, hv.2]

theorem scanLoop_g_bad {env : Env} {fuel : Nat} {s : ScanState} {d' : GetoptData} {v : CStr}
    (h : s.d.optind < s.d.argv.length)
    (hg : getopt_long env.posixly_correct s.d = (103, d')) (ha : d'.optarg = some v)
    (hv : parses env.ulong_bits v = false) :
    scanLoop env (fuel + 1) s = some ScanExit.badPort := by
  simp only [parses, Bool.and_eq_false_iff, decide_eq_false_iff_not, not_not,
    Bool.not_eq_false'] at hv
  conv_lhs => unfold scanLoop
  simp only [h, hg, ha, if_true]
  rcases hv with hv | hv <;> simp [hv]

theorem scanLoop_h {env : Env} {fuel : Nat} {s : ScanState} {d' : GetoptData}
    (h : s.d.optind < s.d.argv.length)
    (hg : getopt_long env.posixly_correct s.d = (104, d')) :
    scanLoop env (fuel + 1) s = some (ScanExit.help (d'.argv.headD [])) := by
  conv_lhs => unfold scanLoop
  simp [h, hg]

theorem scanLoop_v {env : Env} {fuel : Nat} {s : ScanState} {d' : GetoptData}
    (h : s.d.optind < s.d.argv.length)
    (hg : getopt_long env.posixly_correct s.d = (118, d')) :
    scanLoop env (fuel + 1) s = some ScanExit.version := by
  conv_lhs => unfold scanLoop
  simp [h, hg]

theorem scanLoop_nonoption {env : Env} {fuel : Nat} {s : ScanState} {d' : GetoptData}
    {a : CStr} {tl : List CStr} (h : s.d.optind < s.d.argv.length)
    (hg : getopt_long env.posixly_correct s.d = (-1, d'))
    (hd : d'.argv.drop d'.optind = a :: tl) :
    scanLoop env (fuel + 1) s = scanLoop env fuel
      { s with d := { d' with optind := d'.optind + 1 }, boot_filename := a } := by
  conv_lhs => unfold scanLoop
  simp [h, hg, hd]

theorem scanLoop_congr {env : Env} {fuel : Nat} {s : ScanState} {d' : GetoptData}
    (h : s.d.optind < s.d.argv.length) (h' : d'.optind < d'.argv.length)
    (hg : getopt_long env.posixly_correct s.d = getopt_long env.posixly_correct d') :
    scanLoop env fuel s = scanLoop env fuel { s with d := d' } := by
  cases fuel with
  | zero => unfold scanLoop; simp [h, h']
  | succ n =>
    conv_lhs => unfold scanLoop
    conv_rhs => unfold scanLoop
    simp only [h, h', if_true, hg]

theorem aligned_lt {d : GetoptData} {prog a : CStr} {rest : List CStr}
    (h : Aligned d prog (a :: rest)) : d.optind < d.argv.length :=
  drop_eq_cons_lt h.suffix

theorem aligned_init (prog : CStr) (rest : List CStr) :
    Aligned (GetoptData.init (prog :: rest)) prog rest :=
  ⟨rfl, rfl, rfl, le_refl _, le_refl _, le_refl _, by simp [GetoptData.init]⟩

theorem renderGdb_ne_nil (form : GdbForm) (v : CStr) :
    ∃ a tl, renderGdb form v = a :: tl := by
  cases form <;> simp [renderGdb]

/-- A scan that stands before valid items followed by a tail ends the way it
ends on the tail, under either ordering. -/
theorem scanLoop_items_then {env : Env} {prog : CStr} {t : CStr} {post : List CStr}
    {R : ScanExit}
    (hT : ∀ (s : ScanState) (fuel : Nat), Aligned s.d prog (t :: post) →
      scanLoop env (fuel + 1) s = some R) :
    ∀ (items : List Item) (s : ScanState) (fuel : Nat),
      validItems env.ulong_bits items = true →
      Aligned s.d prog (renderItems items ++ t :: post) → items.length < fuel →
      scanLoop env fuel s = some R := by
  intro items
  induction items with
  | nil =>
    intro s fuel _ hal hf
    obtain ⟨k, rfl⟩ : ∃ k, fuel = k + 1 := ⟨fuel - 1, by simp at hf; omega⟩
    exact hT s k hal
  | cons it items ih =>
    intro s fuel hv hal hf
    simp only [validItems, List.all_cons, Bool.and_eq_true] at hv
    obtain ⟨hv1, hv2⟩ := hv
    simp only [List.length_cons] at hf
    cases it with
    | positional p =>
      simp only [Item.valid] at hv1
      have hal' : Aligned s.d prog (p :: (renderItems items ++ t :: post)) := hal
      cases hpc : env.posixly_correct with
      | true =>
        obtain ⟨k, rfl⟩ : ∃ k, fuel = k + 1 := ⟨fuel - 1, by omega⟩
        have hg := getopt_long_positional_posix hal' hv1
        rw [← hpc] at hg
        rw [scanLoop_nonoption (aligned_lt hal') hg hal'.suffix]
        apply ih _ _ hv2 _ (by omega)
        have hlt0 : s.d.optind < s.d.argv.length := aligned_lt hal'
        have hdr : s.d.argv.drop (s.d.optind + 1) = renderItems items ++ t :: post :=
          drop_succ_of_drop_eq_cons hal'.suffix
        exact ⟨hal'.nextchar, hdr, hal'.argv0,
          hal'.first_pos, hal'.first_le, le_trans hal'.last_le (Nat.le_succ _), hlt0⟩
      | false =>
        obtain ⟨d', hd', hg⟩ := getopt_long_positional_permute hal' hv1
        rw [← hpc] at hg
        have hlt' : d'.optind < d'.argv.length := by
          cases hr : renderItems items ++ t :: post with
          | nil => cases items <;> simp [renderItems] at hr
          | cons a tl => rw [hr] at hd'; exact aligned_lt hd'
        rw [scanLoop_congr (aligned_lt hal') hlt' hg]
        exact ih _ _ hv2 hd' (by omega)
    | gdbport form v =>
      simp only [Item.valid, Bool.and_eq_true, Bool.or_eq_true, bne_iff_ne, ne_eq] at hv1
      have hal' : Aligned s.d prog (renderGdb form v ++ (renderItems items ++ t :: post)) := by
        simpa [renderItems, Item.render, List.append_assoc] using hal
      have hne : form = GdbForm.shortJoined → v ≠ [] := by
        intro hform
        rcases hv1.2 with h1 | h1
        · exact absurd hform h1
        · exact h1
      obtain ⟨d', hg, ha, hd', -⟩ := getopt_long_gdb env.posixly_correct form v hal' hne
      obtain ⟨k, rfl⟩ : ∃ k, fuel = k + 1 := ⟨fuel - 1, by omega⟩
      obtain ⟨a, tl, hr⟩ := renderGdb_ne_nil form v
      have hlt : s.d.optind < s.d.argv.length := by
        rw [hr] at hal'
        exact aligned_lt hal'
      rw [scanLoop_g hlt hg ha hv1.1]
      exact ih _ _ hv2 hd' (by omega)

/-! ## The scan of a command line in order -/

theorem scannedBoot_positional (boot0 p : CStr) (items : List Item) :
    scannedBoot boot0 (Item.positional p :: items) = scannedBoot p items := by
  simp only [scannedBoot, positionals, List.getLast?_cons]
  rfl

theorem scannedPort_gdbport (w port0 : Nat) (form : GdbForm) (v : CStr) (items : List Item) :
    scannedPort w port0 (Item.gdbport form v :: items)
      = scannedPort w ((strtoul w v).value % 2 ^ 32) items := by
  simp only [scannedPort, gdbValues, List.getLast?_cons]
  cases (gdbValues items).getLast? <;> rfl

theorem scannedUse_gdbport (use0 : Bool) (form : GdbForm) (v : CStr) (items : List Item) :
    scannedUse use0 (Item.gdbport form v :: items) = scannedUse true items := by
  simp [scannedUse, gdbValues]

/-- Under `REQUIRE_ORDER` a scan that stands before valid items runs through
them in order. -/
theorem scanLoop_items_posix {env : Env} {prog : CStr} (hpc : env.posixly_correct = true) :
    ∀ (items : List Item) (s : ScanState) (fuel : Nat),
      validItems env.ulong_bits items = true →
      Aligned s.d prog (renderItems items) → items.length ≤ fuel →
      scanLoop env fuel s = some (ScanExit.done (scannedUse s.use_gdbstub items)
        (scannedPort env.ulong_bits s.gdb_port items) (scannedBoot s.boot_filename items)) := by
  intro items
  induction items with
  | nil =>
    intro s fuel _ hal _
    have hd : s.d.argv.drop s.d.optind = [] := hal.suffix
    have hge : ¬ s.d.optind < s.d.argv.length := by
      intro hlt
      have := List.drop_eq_nil_iff.1 hd
      omega
    rw [scanLoop_done hge]
    simp [scannedUse, scannedPort, scannedBoot, gdbValues, positionals]
  | cons it items ih =>
    intro s fuel hv hal hf
    simp only [validItems, List.all_cons, Bool.and_eq_true] at hv
    obtain ⟨hv1, hv2⟩ := hv
    simp only [List.length_cons] at hf
    obtain ⟨k, rfl⟩ : ∃ k, fuel = k + 1 := ⟨fuel - 1, by omega⟩
    cases it with
    | positional p =>
      simp only [Item.valid] at hv1
      have hal' : Aligned s.d prog (p :: renderItems items) := hal
      have hg := getopt_long_positional_posix hal' hv1
      rw [← hpc] at hg
      rw [scanLoop_nonoption (aligned_lt hal') hg hal'.suffix]
      have hlt0 : s.d.optind < s.d.argv.length := aligned_lt hal'
      have hdr : s.d.argv.drop (s.d.optind + 1) = renderItems items :=
        drop_succ_of_drop_eq_cons hal'.suffix
      refine (ih _ k hv2 ?_ (by omega)).trans ?_
      · exact ⟨hal'.nextchar, hdr, hal'.argv0, hal'.first_pos, hal'.first_le,
          le_trans hal'.last_le (Nat.le_succ _), hlt0⟩
      · simp only [scannedBoot_positional]
        simp [scannedUse, scannedPort, gdbValues]
    | gdbport form v =>
      simp only [Item.valid, Bool.and_eq_true, Bool.or_eq_true, bne_iff_ne, ne_eq] at hv1
      have hal' : Aligned s.d prog (renderGdb form v ++ renderItems items) := hal
      have hne : form = GdbForm.shortJoined → v ≠ [] := by
        intro hform
        rcases hv1.2 with h1 | h1
        · exact absurd hform h1
        · exact h1
      obtain ⟨d', hg, ha, hd', -⟩ := getopt_long_gdb env.posixly_correct form v hal' hne
      obtain ⟨a, tl, hr⟩ := renderGdb_ne_nil form v
      have hlt : s.d.optind < s.d.argv.length := by
        rw [hr] at hal'
        exact aligned_lt hal'
      rw [scanLoop_g hlt hg ha hv1.1]
      refine (ih _ k hv2 hd' (by omega)).trans ?_
      simp only [scannedPort_gdbport, scannedUse_gdbport]
      simp [scannedBoot, positionals]

/-- Under `PERMUTE` a scan that stands before valid options followed by at
most one non-option token, with nothing skipped so far, runs through them in
order. -/
theorem scanLoop_items_permute {env : Env} {prog : CStr} (hpc : env.posixly_correct = false) :
    ∀ (items : List Item) (s : ScanState) (fuel : Nat),
      validItems env.ulong_bits items = true → optionsFirst items = true →
      Aligned s.d prog (renderItems items) → s.d.first_nonopt = s.d.last_nonopt →
      items.length ≤ fuel →
      scanLoop env fuel s = some (ScanExit.done (scannedUse s.use_gdbstub items)
        (scannedPort env.ulong_bits s.gdb_port items) (scannedBoot s.boot_filename items)) := by
  intro items
  induction items with
  | nil =>
    intro s fuel _ _ hal _ _
    have hd : s.d.argv.drop s.d.optind = [] := hal.suffix
    have hge : ¬ s.d.optind < s.d.argv.length := by
      intro hlt
      have := List.drop_eq_nil_iff.1 hd
      omega
    rw [scanLoop_done hge]
    simp [scannedUse, scannedPort, scannedBoot, gdbValues, positionals]
  | cons it items ih =>
    intro s fuel hv hof hal hfr hf
    simp only [validItems, List.all_cons, Bool.and_eq_true] at hv
    obtain ⟨hv1, hv2⟩ := hv
    simp only [List.length_cons] at hf
    obtain ⟨k, rfl⟩ : ∃ k, fuel = k + 1 := ⟨fuel - 1, by omega⟩
    cases it with
    | positional p =>
      cases items with
      | cons x xs => simp [optionsFirst] at hof
      | nil =>
        simp only [Item.valid] at hv1
        have hal' : Aligned s.d prog [p] := hal
        obtain ⟨d', hg, ho, hargv⟩ := getopt_long_last_positional_permute hal' hv1 hfr
        rw [← hpc] at hg
        have hd : d'.argv.drop d'.optind = [p] := by rw [ho, hargv]; exact hal'.suffix
        rw [scanLoop_nonoption (aligned_lt hal') hg hd]
        have hge : ¬ (d'.optind + 1 < d'.argv.length) := by
          have h1 := drop_succ_of_drop_eq_cons hd
          have := List.drop_eq_nil_iff.1 h1
          omega
        rw [scanLoop_done hge]
        simp [scannedUse, scannedPort, scannedBoot, gdbValues, positionals]
    | gdbport form v =>
      simp only [Item.valid, Bool.and_eq_true, Bool.or_eq_true, bne_iff_ne, ne_eq] at hv1
      have hal' : Aligned s.d prog (renderGdb form v ++ renderItems items) := hal
      have hne : form = GdbForm.shortJoined → v ≠ [] := by
        intro hform
        rcases hv1.2 with h1 | h1
        · exact absurd hform h1
        · exact h1
      obtain ⟨d', hg, ha, hd', hfr'⟩ :=
        getopt_long_gdb env.posixly_correct form v hal' hne
      obtain ⟨a, tl, hr⟩ := renderGdb_ne_nil form v
      have hlt : s.d.optind < s.d.argv.length := by
        rw [hr] at hal'
        exact aligned_lt hal'
      have hof' : optionsFirst items = true := by simpa [optionsFirst] using hof
      rw [scanLoop_g hlt hg ha hv1.1]
      refine (ih _ k hv2 hof' hd' (hfr' hfr) (by omega)).trans ?_
      simp only [scannedPort_gdbport, scannedUse_gdbport]
      simp [scannedBoot, positionals]

/-- The outcome of the argument scan of `main` on a command line made of valid
items that can be scanned in order. -/
theorem scan_items (env : Env) (prog : CStr) (items : List Item) (persisted : Values)
    (fuel : Nat) (hv : validItems env.ulong_bits items = true)
    (hs : scannable env items = true) (hf : items.length ≤ fuel) :
    scan env fuel (prog :: renderItems items) persisted
      = some (ScanExit.done (scannedUse persisted.use_gdbstub items)
          (scannedPort env.ulong_bits (persisted.gdbstub_port % 2 ^ 32) items)
          (scannedBoot [] items)) := by
  unfold scan
  cases hpc : env.posixly_correct with
  | true =>
    exact scanLoop_items_posix hpc items _ fuel hv (aligned_init prog _) hf
  | false =>
    have hof : optionsFirst items = true := by simpa [scannable, hpc] using hs
    exact scanLoop_items_permute hpc items _ fuel hv hof (aligned_init prog _) rfl hf

/-- The outcome of the argument scan of `main` when valid items are followed
by a debug-port option whose value fails, or by a help or version option. -/
theorem scan_items_then (env : Env) (prog : CStr) (items : List Item) (t : CStr)
    (post : List CStr) (persisted : Values) (fuel : Nat) (R : ScanExit)
    (hT : ∀ (s : ScanState) (fuel : Nat), Aligned s.d prog (t :: post) →
      scanLoop env (fuel + 1) s = some R)
    (hv : validItems env.ulong_bits items = true) (hf : items.length < fuel) :
    scan env fuel (prog :: (renderItems items ++ t :: post)) persisted = some R := by
  unfold scan
  exact scanLoop_items_then hT items _ fuel hv (aligned_init prog _) hf

/-! ## `strtoul` on plain decimal numerals -/

theorem runLoop_from (isOpen : Nat → Bool) :
    ∀ (n fuel i : Nat), (∀ j, j < n → isOpen (i + j) = true) → isOpen (i + n) = false →
      n < fuel → runLoop isOpen fuel i = (loopTrace n, true) := by
  intro n
  induction n with
  | zero =>
    intro fuel i _ hc hf
    obtain ⟨k, rfl⟩ : ∃ k, fuel = k + 1 := ⟨fuel - 1, by omega⟩
    simp only [Nat.add_zero] at hc
    simp [runLoop, hc, loopTrace]
  | succ n ih =>
    intro fuel i ho hc hf
    obtain ⟨k, rfl⟩ : ∃ k, fuel = k + 1 := ⟨fuel - 1, by omega⟩
    have h0 : isOpen i = true := by simpa using ho 0 (by omega)
    have ih' := ih k (i + 1) (fun j hj => by
      have := ho (j + 1) (by omega)
      rwa [show i + 1 + j = i + (j + 1) by omega]) (by
      rwa [show i + 1 + n = i + (n + 1) by omega]) (by omega)
    simp [runLoop, h0, ih', loopTrace, List.replicate_succ]

/-- The run loop of a surface whose first `closed` answer is the one to query
`n` makes `n` rounds and stops, given fuel for them. -/
theorem runLoop_closes (isOpen : Nat → Bool) (n fuel : Nat)
    (hc : firstClosedAt isOpen n = true) (hf : n < fuel) :
    runLoop isOpen fuel 0 = (loopTrace n, true) := by
  simp only [firstClosedAt, Bool.and_eq_true, List.all_eq_true, List.mem_range,
    Bool.not_eq_true'] at hc
  exact runLoop_from isOpen n fuel 0 (fun j hj => by simpa using hc.1 j hj)
    (by simpa using hc.2) hf

theorem loopTrace_count_RunLoop (n : Nat) : (loopTrace n).count Event.RunLoop = n := by
  induction n with
  | zero => simp [loopTrace]
  | succ n ih =>
    simp only [loopTrace, List.replicate_succ, List.flatten_cons, List.append_assoc,
      List.cons_append, List.nil_append] at ih ⊢
    simp [List.count_cons, ih]

theorem loopTrace_count_open (n : Nat) : (loopTrace n).count (Event.IsOpen true) = n := by
  induction n with
  | zero => simp [loopTrace]
  | succ n ih =>
    simp only [loopTrace, List.replicate_succ, List.flatten_cons, List.append_assoc,
      List.cons_append, List.nil_append] at ih ⊢
    simp [List.count_cons, ih]

theorem loopTrace_count_closed (n : Nat) : (loopTrace n).count (Event.IsOpen false) = 1 := by
  induction n with
  | zero => simp [loopTrace]
  | succ n ih =>
    simp only [loopTrace, List.replicate_succ, List.flatten_cons, List.append_assoc,
      List.cons_append, List.nil_append] at ih ⊢
    simp [List.count_cons, ih]

theorem loopTrace_inSession (n : Nat) : (loopTrace n).all Event.inSession = true := by
  induction n with
  | zero => simp [loopTrace, Event.inSession]
  | succ n ih =>
    simp only [loopTrace, List.replicate_succ, List.flatten_cons, List.append_assoc,
      List.cons_append, List.nil_append] at ih ⊢
    simp only [List.all_cons, ih, Event.inSession, Bool.and_self]

/-- The run of `main` when the scan leaves `boot_filename` empty. -/
theorem main_no_boot {env : Env} {argv : List CStr} {persisted : Values} {c : Collaborators}
    {fuel : Nat} {u : Bool} {p : Nat}
    (hs : scan env fuel argv persisted = some (ScanExit.done u p [])) :
    main env argv persisted c fuel = some (Run.exited ⟨-1,
      [Event.ConfigCtor, Event.LogSetFilter, Event.MicroProfileOnThreadCreate,
       Event.LogNoRomSpecified, Event.MicroProfileShutdown, Event.ConfigDtor], persisted⟩) := by
  simp [main, hs]

/-- The run of `main` when no loader is returned for the boot file name. -/
theorem main_no_loader {env : Env} {argv : List CStr} {persisted : Values} {c : Collaborators}
    {fuel : Nat} {u : Bool} {p : Nat} {boot : CStr}
    (hs : scan env fuel argv persisted = some (ScanExit.done u p boot)) (hb : boot ≠ [])
    (hl : c.getLoader boot = false) :
    main env argv persisted c fuel = some (Run.exited ⟨-1,
      [Event.ConfigCtor, Event.LogSetFilter, Event.MicroProfileOnThreadCreate,
       Event.ParseFilterString persisted.log_filter,
       Event.SettingsApply (appliedValues env persisted u p),
       Event.EmuWindowCtor, Event.SystemInit c.initStatus, Event.GetLoader boot, Event.LogNoLoader boot,
       Event.SystemShutdown, Event.EmuWindowDtor, Event.MicroProfileShutdown, Event.ConfigDtor],
      appliedValues env persisted u p⟩) := by
  simp [main, hs, hb, hl, appliedValues]

/-- The run of `main` when the load fails. -/
theorem main_load_error {env : Env} {argv : List CStr} {persisted : Values} {c : Collaborators}
    {fuel : Nat} {u : Bool} {p : Nat} {boot : CStr} {code : Nat}
    (hs : scan env fuel argv persisted = some (ScanExit.done u p boot)) (hb : boot ≠ [])
    (hl : c.getLoader boot = true) (he : c.load = ResultStatus.Error code) :
    main env argv persisted c fuel = some (Run.exited ⟨-1,
      [Event.ConfigCtor, Event.LogSetFilter, Event.MicroProfileOnThreadCreate,
       Event.ParseFilterString persisted.log_filter,
       Event.SettingsApply (appliedValues env persisted u p),
       Event.EmuWindowCtor, Event.SystemInit c.initStatus, Event.GetLoader boot, Event.Load,
       Event.LogLoadError (ResultStatus.Error code), Event.LoaderDtor,
       Event.SystemShutdown, Event.EmuWindowDtor, Event.MicroProfileShutdown, Event.ConfigDtor],
      appliedValues env persisted u p⟩) := by
  simp [main, hs, hb, hl, he, appliedValues]

/-- The run of `main` when the load succeeds and the surface closes. -/
theorem main_session {env : Env} {argv : List CStr} {persisted : Values} (c : Collaborators)
    {fuel n : Nat} {u : Bool} {p : Nat} {boot : CStr}
    (hs : scan env fuel argv persisted = some (ScanExit.done u p boot)) (hb : boot ≠ [])
    (hl : c.getLoader boot = true) (he : c.load = ResultStatus.Success)
    (hc : firstClosedAt c.isOpen n = true) (hf : n < fuel) :
    main env argv persisted c fuel = some (Run.exited ⟨0,
      [Event.ConfigCtor, Event.LogSetFilter, Event.MicroProfileOnThreadCreate,
       Event.ParseFilterString persisted.log_filter,
       Event.SettingsApply (appliedValues env persisted u p),
       Event.EmuWindowCtor, Event.SystemInit c.initStatus, Event.GetLoader boot, Event.Load]
       ++ loopTrace n ++
      [Event.LoaderDtor,
       Event.SystemShutdown, Event.EmuWindowDtor, Event.MicroProfileShutdown, Event.ConfigDtor],
      appliedValues env persisted u p⟩) := by
  simp [main, hs, hb, hl, he, runLoop_closes c.isOpen n fuel hc hf, appliedValues]

/-! ## Help, version, and a debug-port value that fails -/

theorem scanLoop_at_help {env : Env} {prog t : CStr} {post : List CStr}
    (ht : isHelpToken t = true) (s : ScanState) (fuel : Nat)
    (hal : Aligned s.d prog (t :: post)) :
    scanLoop env (fuel + 1) s = some (ScanExit.help prog) := by
  obtain ⟨d', hg, h0⟩ := getopt_long_help env.posixly_correct hal ht
  rw [scanLoop_h (aligned_lt hal) hg, h0]

theorem scanLoop_at_version {env : Env} {prog t : CStr} {post : List CStr}
    (ht : isVersionToken t = true) (s : ScanState) (fuel : Nat)
    (hal : Aligned s.d prog (t :: post)) :
    scanLoop env (fuel + 1) s = some ScanExit.version := by
  obtain ⟨d', hg⟩ := getopt_long_version env.posixly_correct hal ht
  rw [scanLoop_v (aligned_lt hal) hg]

theorem scanLoop_at_bad_port {env : Env} {prog : CStr} {form : GdbForm} {v : CStr}
    {post : List CStr} (hbad : parses env.ulong_bits v = false)
    (hj : form = GdbForm.shortJoined → v ≠ []) (s : ScanState) (fuel : Nat)
    (hal : Aligned s.d prog (renderGdb form v ++ post)) :
    scanLoop env (fuel + 1) s = some ScanExit.badPort := by
  obtain ⟨d', hg, ha, -, -⟩ := getopt_long_gdb env.posixly_correct form v hal hj
  obtain ⟨a, tl, hr⟩ := renderGdb_ne_nil form v
  have hlt : s.d.optind < s.d.argv.length := by
    rw [hr] at hal
    exact aligned_lt hal
  exact scanLoop_g_bad hlt hg ha hbad

/-- C2. A help option (`-h`, `--help`) or a version option (`-v`, `--version`)
that follows any number of non-option tokens and valid debug-port options,
whatever comes behind it, makes `main` print the corresponding message and
return 0; the trace holds nothing but the construction of `Config`, the
message and the destruction of `Config`: no log filter is installed, no
settings are applied, no display surface or engine is acquired, no loader is
requested and the run loop is not entered.  `Settings::values` is untouched.
This holds under either ordering of `getopt_long`. -/
theorem help_or_version_short_circuits (env : Env) (prog : CStr) (items : List Item) (t : CStr)
    (post : List CStr) (persisted : Values) (c : Collaborators) (fuel : Nat)
    (hv : validItems env.ulong_bits items = true)
    (ht : isHelpToken t = true ∨ isVersionToken t = true)
    (hf : items.length < fuel) :
    main env (prog :: (renderItems items ++ t :: post)) persisted c fuel
      = some (Run.exited ⟨0,
          [Event.ConfigCtor,
           if isHelpToken t then Event.PrintHelp prog else Event.PrintVersion,
           Event.ConfigDtor],
          persisted⟩) := by
  by_cases hh : isHelpToken t = true
  · have hs := scan_items_then env prog items t post persisted fuel (ScanExit.help prog)
      (fun s k hal => scanLoop_at_help hh s k hal) hv hf
    simp [main, hs, hh]
  · have hvz : isVersionToken t = true := by
      rcases ht with h | h
      · exact absurd h hh
      · exact h
    have hs := scan_items_then env prog items t post persisted fuel ScanExit.version
      (fun s k hal => scanLoop_at_version hvz s k hal) hv hf
    simp [main, hs, hh]

/-- Witness for C2: `prog game.bin -g 1234 --help rest`. -/
theorem help_or_version_short_circuits_witness :
    main ⟨64, 16, false⟩
        ["prog".toList, "game.bin".toList, "-g".toList, "1234".toList, "--help".toList,
         "rest".toList]
        ⟨false, 24689, []⟩ ⟨0, fun _ => true, ResultStatus.Success, fun _ => false⟩ 4
      = some (Run.exited ⟨0,
          [Event.ConfigCtor, Event.PrintHelp "prog".toList, Event.ConfigDtor],
          ⟨false, 24689, []⟩⟩) :=
  help_or_version_short_circuits ⟨64, 16, false⟩ "prog".toList
    [Item.positional "game.bin".toList, Item.gdbport GdbForm.shortSep "1234".toList]
    "--help".toList ["rest".toList] ⟨false, 24689, []⟩
    ⟨0, fun _ => true, ResultStatus.Success, fun _ => false⟩ 4 (by decide) (by decide)
    (by decide)

/-- The run of `main` when valid items are followed by a debug-port option
whose value fails the checks of `case 'g'`. -/
theorem main_bad_port (env : Env) (prog : CStr) (items : List Item)
    (form : GdbForm) (v : CStr) (post : List CStr) (persisted : Values) (c : Collaborators)
    (fuel : Nat)
    (hv : validItems env.ulong_bits items = true)
    (hbad : parses env.ulong_bits v = false)
    (hj : form = GdbForm.shortJoined → v ≠ [])
    (hf : items.length < fuel) :
    main env (prog :: (renderItems items ++ (renderGdb form v ++ post))) persisted c fuel
      = some (Run.exited ⟨1, [Event.ConfigCtor, Event.Perror], persisted⟩) := by
  obtain ⟨a, tl, hr⟩ := renderGdb_ne_nil form v
  have hs : scan env fuel (prog :: (renderItems items ++ (renderGdb form v ++ post))) persisted
      = some ScanExit.badPort := by
    have hT : ∀ (s : ScanState) (k : Nat), Aligned s.d prog (a :: (tl ++ post)) →
        scanLoop env (k + 1) s = some ScanExit.badPort := by
      intro s k hal
      apply scanLoop_at_bad_port hbad hj s k
      rw [hr]
      exact hal
    have := scan_items_then env prog items a (tl ++ post) persisted fuel ScanExit.badPort hT hv hf
    rw [hr]
    exact this
  simp [main, hs]

/-- C3. A debug-port option (`-g v`, `-gv`, `--gdbport v`, `--gdbport=v`) whose
value fails the checks of `case 'g'` (`strtoul` consumed no digit, as for
`abc` or the empty string, or reported `ERANGE`), reached after non-option
tokens and valid debug-port options only, ends the process with status 1; the
trace holds the construction of `Config` and `perror` and nothing else, and
`Settings::values` is untouched.  This holds under either ordering. -/
theorem bad_port_exits_before_acquisition (env : Env) (prog : CStr) (items : List Item)
    (form : GdbForm) (v : CStr) (post : List CStr) (persisted : Values) (c : Collaborators)
    (fuel : Nat)
    (hv : validItems env.ulong_bits items = true)
    (hbad : parses env.ulong_bits v = false)
    (hj : form = GdbForm.shortJoined → v ≠ [])
    (hf : items.length < fuel) :
    main env (prog :: (renderItems items ++ (renderGdb form v ++ post))) persisted c fuel
      = some (Run.exited ⟨1, [Event.ConfigCtor, Event.Perror], persisted⟩) :=
  main_bad_port env prog items form v post persisted c fuel hv hbad hj hf

/-- Witness for C3: `prog game.bin --gdbport=abc other`, and the values the
claim names fail the checks. -/
theorem bad_port_exits_before_acquisition_witness :
    (parses 64 "abc".toList = false ∧ parses 64 [] = false
      ∧ parses 64 "18446744073709551616".toList = false)
    ∧ main ⟨64, 16, false⟩
        ["prog".toList, "game.bin".toList, "--gdbport=abc".toList, "other".toList]
        ⟨false, 24689, []⟩ ⟨0, fun _ => true, ResultStatus.Success, fun _ => false⟩ 4
      = some (Run.exited ⟨1, [Event.ConfigCtor, Event.Perror], ⟨false, 24689, []⟩⟩) :=
  ⟨by decide,
   bad_port_exits_before_acquisition ⟨64, 16, false⟩ "prog".toList
    [Item.positional "game.bin".toList] GdbForm.longEq "abc".toList ["other".toList]
    ⟨false, 24689, []⟩ ⟨0, fun _ => true, ResultStatus.Success, fun _ => false⟩ 4
    (by decide) (by decide) (by decide) (by decide)⟩

/-! ## Acquisition, run loop and teardown -/

theorem guardedFrom_loopTrace (n : Nat) (prev : Option Event) (tl : List Event) :
    guardedFrom prev (loopTrace n ++ tl) = guardedFrom (some (Event.IsOpen false)) tl := by
  induction n generalizing prev with
  | zero => simp [loopTrace, guardedFrom]
  | succ n ih =>
    have e : loopTrace (n + 1) ++ tl
        = Event.IsOpen true :: Event.RunLoop :: (loopTrace n ++ tl) := by
      simp [loopTrace, List.replicate_succ]
    rw [e]
    simp [guardedFrom, ih]

theorem count_eq_zero_of_inSession {mid : List Event} (h : mid.all Event.inSession = true)
    (e : Event) (he : e.inSession = false) : mid.count e = 0 := by
  rw [List.count_eq_zero]
  intro hm
  rw [List.all_eq_true] at h
  have := h e hm
  rw [he] at this
  cases this

/-- C1. Whenever execution reaches `System::Init` (the scan ends with a
non-empty boot file name), whatever the loader does, and with a surface that
closes after `n` rounds, `main` leaves with a trace made of the acquisitions
(`MicroProfileOnThreadCreate`, then the display surface, then `System::Init`),
the loader and run-loop events, and the teardown `System::Shutdown`, destruction
of the display surface, `MicroProfileShutdown` in this order: the reverse of
the acquisitions.  `System::Shutdown` occurs exactly once, behind `System::Init`
and behind every loader and run-loop call. -/
theorem release_pairs_with_acquire (env : Env) (argv : List CStr) (persisted : Values)
    (c : Collaborators) (fuel n : Nat) (u : Bool) (p : Nat) (boot : CStr)
    (hscan : scan env fuel argv persisted = some (ScanExit.done u p boot))
    (hboot : boot ≠ [])
    (hclose : firstClosedAt c.isOpen n = true) (hfuel : n < fuel) :
    ∃ o mid, main env argv persisted c fuel = some (Run.exited o)
      ∧ o.trace =
          [Event.ConfigCtor, Event.LogSetFilter, Event.MicroProfileOnThreadCreate,
           Event.ParseFilterString persisted.log_filter, Event.SettingsApply o.settings,
           Event.EmuWindowCtor, Event.SystemInit c.initStatus]
          ++ mid ++
          [Event.SystemShutdown, Event.EmuWindowDtor, Event.MicroProfileShutdown,
           Event.ConfigDtor]
      ∧ mid.all Event.inSession = true
      ∧ o.trace.count Event.SystemShutdown = 1 := by
  have key : ∀ (o : Outcome) (mid : List Event),
      main env argv persisted c fuel = some (Run.exited o) →
      o.trace =
          [Event.ConfigCtor, Event.LogSetFilter, Event.MicroProfileOnThreadCreate,
           Event.ParseFilterString persisted.log_filter, Event.SettingsApply o.settings,
           Event.EmuWindowCtor, Event.SystemInit c.initStatus]
          ++ mid ++
          [Event.SystemShutdown, Event.EmuWindowDtor, Event.MicroProfileShutdown,
           Event.ConfigDtor] →
      mid.all Event.inSession = true →
      ∃ o mid, main env argv persisted c fuel = some (Run.exited o)
      ∧ o.trace =
          [Event.ConfigCtor, Event.LogSetFilter, Event.MicroProfileOnThreadCreate,
           Event.ParseFilterString persisted.log_filter, Event.SettingsApply o.settings,
           Event.EmuWindowCtor, Event.SystemInit c.initStatus]
          ++ mid ++
          [Event.SystemShutdown, Event.EmuWindowDtor, Event.MicroProfileShutdown,
           Event.ConfigDtor]
      ∧ mid.all Event.inSession = true
      ∧ o.trace.count Event.SystemShutdown = 1 := by
    intro o mid hm ht hs
    refine ⟨o, mid, hm, ht, hs, ?_⟩
    rw [ht]
    have h0 := count_eq_zero_of_inSession hs Event.SystemShutdown rfl
    simp [List.count_append, List.count_cons, h0]
  cases hl : c.getLoader boot with
  | false =>
    exact key _ [Event.GetLoader boot, Event.LogNoLoader boot]
      (main_no_loader hscan hboot hl) (by simp) (by simp [Event.inSession])
  | true =>
    cases he : c.load with
    | Error code =>
      exact key _ [Event.GetLoader boot, Event.Load,
          Event.LogLoadError (ResultStatus.Error code), Event.LoaderDtor]
        (main_load_error hscan hboot hl he) (by simp) (by simp [Event.inSession])
    | Success =>
      exact key _ (Event.GetLoader boot :: Event.Load :: (loopTrace n ++ [Event.LoaderDtor]))
        (main_session c hscan hboot hl he hclose hfuel) (by simp)
        (by simp [Event.inSession, loopTrace_inSession])

/-- Witness for C1: `prog game.bin`, a loader that loads, a surface that closes
after two rounds. -/
theorem release_pairs_with_acquire_witness :
    ∃ o mid, main ⟨64, 16, false⟩ ["prog".toList, "game.bin".toList] ⟨false, 24689, []⟩
        ⟨0, fun _ => true, ResultStatus.Success, fun i => decide (i < 2)⟩ 3
        = some (Run.exited o)
      ∧ o.trace =
          [Event.ConfigCtor, Event.LogSetFilter, Event.MicroProfileOnThreadCreate,
           Event.ParseFilterString [], Event.SettingsApply o.settings,
           Event.EmuWindowCtor, Event.SystemInit 0]
          ++ mid ++
          [Event.SystemShutdown, Event.EmuWindowDtor, Event.MicroProfileShutdown,
           Event.ConfigDtor]
      ∧ mid.all Event.inSession = true
      ∧ o.trace.count Event.SystemShutdown = 1 :=
  release_pairs_with_acquire ⟨64, 16, false⟩ ["prog".toList, "game.bin".toList]
    ⟨false, 24689, []⟩ ⟨0, fun _ => true, ResultStatus.Success, fun i => decide (i < 2)⟩ 3 2
    false 24689 "game.bin".toList (by decide) (by decide) (by decide) (by decide)

/-- C6. Once loading has succeeded, a surface whose first `closed` answer is the
one to query `n` makes `main` query `IsOpen` `n + 1` times and call
`Core::RunLoop` `n` times, each call right behind a query that answered `open`
and none behind the answer `closed`; `main` then tears down and returns 0. -/
theorem run_loop_checks_before_advance (env : Env) (argv : List CStr) (persisted : Values)
    (c : Collaborators) (fuel n : Nat) (u : Bool) (p : Nat) (boot : CStr)
    (hscan : scan env fuel argv persisted = some (ScanExit.done u p boot))
    (hboot : boot ≠ [])
    (hloader : c.getLoader boot = true) (hload : c.load = ResultStatus.Success)
    (hclose : firstClosedAt c.isOpen n = true) (hfuel : n < fuel) :
    ∃ o, main env argv persisted c fuel = some (Run.exited o)
      ∧ o.exit = 0
      ∧ o.trace =
          [Event.ConfigCtor, Event.LogSetFilter, Event.MicroProfileOnThreadCreate,
           Event.ParseFilterString persisted.log_filter, Event.SettingsApply o.settings,
           Event.EmuWindowCtor, Event.SystemInit c.initStatus, Event.GetLoader boot, Event.Load]
          ++ (List.replicate n [Event.IsOpen true, Event.RunLoop]).flatten
          ++ [Event.IsOpen false, Event.LoaderDtor, Event.SystemShutdown, Event.EmuWindowDtor,
              Event.MicroProfileShutdown, Event.ConfigDtor]
      ∧ o.trace.count Event.RunLoop = n
      ∧ o.trace.count (Event.IsOpen true) = n
      ∧ o.trace.count (Event.IsOpen false) = 1
      ∧ guardedFrom none o.trace = true := by
  refine ⟨_, main_session c hscan hboot hloader hload hclose hfuel, rfl, ?_, ?_, ?_, ?_, ?_⟩
  · simp [loopTrace]
  · have := loopTrace_count_RunLoop n
    simp [List.count_append, List.count_cons, this]
  · have := loopTrace_count_open n
    simp [List.count_append, List.count_cons, this]
  · have := loopTrace_count_closed n
    simp [List.count_append, List.count_cons, this]
  · have hcons : ∀ (prev : Option Event) (e : Event) (rest : List Event),
        e ≠ Event.RunLoop → guardedFrom prev (e :: rest) = guardedFrom (some e) rest := by
      intro prev e rest he
      simp [guardedFrom, he]
    simp only [List.cons_append, List.nil_append, List.append_assoc]
    rw [hcons _ _ _ (by simp), hcons _ _ _ (by simp), hcons _ _ _ (by simp),
      hcons _ _ _ (by simp), hcons _ _ _ (by simp), hcons _ _ _ (by simp),
      hcons _ _ _ (by simp), hcons _ _ _ (by simp), hcons _ _ _ (by simp),
      guardedFrom_loopTrace]
    simp [guardedFrom]

/-- Witness for C6: `prog game.bin` with a surface that is closed at the first
query, so that `Core::RunLoop` is never called. -/
theorem run_loop_checks_before_advance_witness :
    ∃ o, main ⟨64, 16, false⟩ ["prog".toList, "game.bin".toList] ⟨false, 24689, []⟩
        ⟨0, fun _ => true, ResultStatus.Success, fun _ => false⟩ 2 = some (Run.exited o)
      ∧ o.exit = 0
      ∧ o.trace =
          [Event.ConfigCtor, Event.LogSetFilter, Event.MicroProfileOnThreadCreate,
           Event.ParseFilterString [], Event.SettingsApply o.settings,
           Event.EmuWindowCtor, Event.SystemInit 0, Event.GetLoader "game.bin".toList, Event.Load]
          ++ (List.replicate 0 [Event.IsOpen true, Event.RunLoop]).flatten
          ++ [Event.IsOpen false, Event.LoaderDtor, Event.SystemShutdown, Event.EmuWindowDtor,
              Event.MicroProfileShutdown, Event.ConfigDtor]
      ∧ o.trace.count Event.RunLoop = 0
      ∧ o.trace.count (Event.IsOpen true) = 0
      ∧ o.trace.count (Event.IsOpen false) = 1
      ∧ guardedFrom none o.trace = true :=
  run_loop_checks_before_advance ⟨64, 16, false⟩ ["prog".toList, "game.bin".toList]
    ⟨false, 24689, []⟩ ⟨0, fun _ => true, ResultStatus.Success, fun _ => false⟩ 2 0
    false 24689 "game.bin".toList (by decide) (by decide) rfl rfl (by decide) (by decide)

/-! ## Loader failures and the missing boot path -/

/-- C7. With a non-empty boot file name: when `Loader::GetLoader` returns no
loader, `main` returns non-zero without any `Load` or `Core::RunLoop` call; when
a loader is returned, `Load` is called exactly once, and a result other than
`Success` makes `main` return non-zero without any `Core::RunLoop` call.  In
both failure cases `System::Shutdown` has run and the display surface has been
destroyed before `main` returns. -/
theorem loader_failure_is_fatal (env : Env) (argv : List CStr) (persisted : Values)
    (c : Collaborators) (fuel : Nat) (u : Bool) (p : Nat) (boot : CStr)
    (hscan : scan env fuel argv persisted = some (ScanExit.done u p boot))
    (hboot : boot ≠ []) :
    (c.getLoader boot = false →
      ∃ o, main env argv persisted c fuel = some (Run.exited o) ∧ o.exit ≠ 0
        ∧ o.trace.count Event.Load = 0 ∧ o.trace.count Event.RunLoop = 0
        ∧ o.trace =
          [Event.ConfigCtor, Event.LogSetFilter, Event.MicroProfileOnThreadCreate,
           Event.ParseFilterString persisted.log_filter, Event.SettingsApply o.settings,
           Event.EmuWindowCtor, Event.SystemInit c.initStatus, Event.GetLoader boot, Event.LogNoLoader boot,
           Event.SystemShutdown, Event.EmuWindowDtor, Event.MicroProfileShutdown,
           Event.ConfigDtor])
    ∧ (c.getLoader boot = true → ∀ code, c.load = ResultStatus.Error code →
      ∃ o, main env argv persisted c fuel = some (Run.exited o) ∧ o.exit ≠ 0
        ∧ o.trace.count Event.Load = 1 ∧ o.trace.count Event.RunLoop = 0
        ∧ o.trace =
          [Event.ConfigCtor, Event.LogSetFilter, Event.MicroProfileOnThreadCreate,
           Event.ParseFilterString persisted.log_filter, Event.SettingsApply o.settings,
           Event.EmuWindowCtor, Event.SystemInit c.initStatus, Event.GetLoader boot, Event.Load,
           Event.LogLoadError (ResultStatus.Error code), Event.LoaderDtor,
           Event.SystemShutdown, Event.EmuWindowDtor, Event.MicroProfileShutdown,
           Event.ConfigDtor])
    ∧ (c.getLoader boot = true → c.load = ResultStatus.Success →
      ∀ n, firstClosedAt c.isOpen n = true → n < fuel →
      ∃ o, main env argv persisted c fuel = some (Run.exited o)
        ∧ o.trace.count Event.Load = 1) := by
  refine ⟨fun hl => ?_, fun hl code he => ?_, fun hl he n hc hf => ?_⟩
  · exact ⟨_, main_no_loader hscan hboot hl, by simp, by simp [List.count_cons],
      by simp [List.count_cons], rfl⟩
  · exact ⟨_, main_load_error hscan hboot hl he, by simp, by simp [List.count_cons],
      by simp [List.count_cons], rfl⟩
  · refine ⟨_, main_session c hscan hboot hl he hc hf, ?_⟩
    have h1 : (loopTrace n).count Event.Load = 0 := by
      rw [List.count_eq_zero]
      intro hm
      simp only [loopTrace, List.mem_append, List.mem_flatten, List.mem_replicate,
        List.mem_singleton] at hm
      rcases hm with ⟨l, ⟨-, rfl⟩, hm⟩ | hm
      · simp at hm
      · cases hm
    simp [List.count_append, List.count_cons, h1]

/-- Witness for C7: `prog nonexistent.xyz` with no loader for the path. -/
theorem loader_failure_is_fatal_witness :
    ∃ o, main ⟨64, 16, false⟩ ["prog".toList, "nonexistent.xyz".toList] ⟨false, 24689, []⟩
        ⟨0, fun _ => false, ResultStatus.Success, fun _ => true⟩ 2 = some (Run.exited o)
      ∧ o.exit ≠ 0
      ∧ o.trace.count Event.Load = 0 ∧ o.trace.count Event.RunLoop = 0
      ∧ o.trace =
          [Event.ConfigCtor, Event.LogSetFilter, Event.MicroProfileOnThreadCreate,
           Event.ParseFilterString [], Event.SettingsApply o.settings,
           Event.EmuWindowCtor, Event.SystemInit 0, Event.GetLoader "nonexistent.xyz".toList,
           Event.LogNoLoader "nonexistent.xyz".toList,
           Event.SystemShutdown, Event.EmuWindowDtor, Event.MicroProfileShutdown,
           Event.ConfigDtor] :=
  (loader_failure_is_fatal ⟨64, 16, false⟩ ["prog".toList, "nonexistent.xyz".toList]
    ⟨false, 24689, []⟩ ⟨0, fun _ => false, ResultStatus.Success, fun _ => true⟩ 2
    false 24689 "nonexistent.xyz".toList (by decide) (by decide)).1 rfl

theorem optionsFirst_of_no_positional :
    ∀ items : List Item, positionals items = [] → optionsFirst items = true
  | [], _ => rfl
  | Item.positional _ :: _, h => by simp [positionals] at h
  | Item.gdbport _ _ :: rest, h => by
    simp only [optionsFirst]
    exact optionsFirst_of_no_positional rest (by simpa [positionals] using h)

/-- C8. A command line of valid debug-port options only (no non-option token)
leaves `boot_filename` empty, and whenever the scan leaves `boot_filename`
empty `main` logs the missing ROM and returns -1: the display surface is not
constructed, `System::Init` and `System::Shutdown` are not called, no loader is
requested, and `Settings::values` is neither written nor applied.  This holds
under either ordering. -/
theorem missing_boot_path_exits_early (env : Env) (prog : CStr) (items : List Item)
    (persisted : Values) (c : Collaborators) (fuel : Nat)
    (hv : validItems env.ulong_bits items = true)
    (hnone : positionals items = [])
    (hf : items.length ≤ fuel) :
    main env (prog :: renderItems items) persisted c fuel
        = some (Run.exited ⟨-1,
            [Event.ConfigCtor, Event.LogSetFilter, Event.MicroProfileOnThreadCreate,
             Event.LogNoRomSpecified, Event.MicroProfileShutdown, Event.ConfigDtor],
            persisted⟩)
    ∧ ∀ (argv : List CStr) (k : Nat) (u : Bool) (p : Nat),
        scan env k argv persisted = some (ScanExit.done u p []) →
        main env argv persisted c k
          = some (Run.exited ⟨-1,
              [Event.ConfigCtor, Event.LogSetFilter, Event.MicroProfileOnThreadCreate,
               Event.LogNoRomSpecified, Event.MicroProfileShutdown, Event.ConfigDtor],
              persisted⟩) := by
  refine ⟨?_, fun argv k u p hs => main_no_boot hs⟩
  have hs := scan_items env prog items persisted fuel hv
    (by simp [scannable, optionsFirst_of_no_positional items hnone]) hf
  have hb : scannedBoot [] items = [] := by simp [scannedBoot, hnone]
  rw [hb] at hs
  exact main_no_boot hs

/-- Witness for C8: `prog -g 1234 --gdbport=0x10`. -/
theorem missing_boot_path_exits_early_witness :
    main ⟨64, 16, false⟩ ["prog".toList, "-g".toList, "1234".toList, "--gdbport=0x10".toList]
        ⟨false, 24689, []⟩ ⟨0, fun _ => true, ResultStatus.Success, fun _ => false⟩ 2
      = some (Run.exited ⟨-1,
          [Event.ConfigCtor, Event.LogSetFilter, Event.MicroProfileOnThreadCreate,
           Event.LogNoRomSpecified, Event.MicroProfileShutdown, Event.ConfigDtor],
          ⟨false, 24689, []⟩⟩) :=
  (missing_boot_path_exits_early ⟨64, 16, false⟩ "prog".toList
    [Item.gdbport GdbForm.shortSep "1234".toList, Item.gdbport GdbForm.longEq "0x10".toList]
    ⟨false, 24689, []⟩ ⟨0, fun _ => true, ResultStatus.Success, fun _ => false⟩ 2
    (by decide) (by decide) (by decide)).1

/-! ## The status of `System::Init` -/

theorem runLoop_events (isOpen : Nat → Bool) :
    ∀ (fuel i : Nat) (e : Event), e ∈ (runLoop isOpen fuel i).1 →
      e = Event.IsOpen true ∨ e = Event.RunLoop ∨ e = Event.IsOpen false := by
  intro fuel
  induction fuel with
  | zero => intro i e he; simp [runLoop] at he
  | succ k ih =>
    intro i e he
    by_cases h : isOpen i = true
    · simp only [runLoop, h, if_true, List.mem_cons] at he
      rcases he with rfl | rfl | he
      · exact Or.inl rfl
      · exact Or.inr (Or.inl rfl)
      · exact ih (i + 1) e he
    · simp only [runLoop, h, if_false, List.mem_singleton, Bool.false_eq_true] at he
      exact Or.inr (Or.inr he)

/-- A run whose scan ends with a non-empty boot file name, whatever the
collaborators answer and whether or not the surface closes: the trace starts
with the acquisitions, `System::Init` is followed by the request for a loader,
and neither the apply step nor a request for a loader occurs behind that. -/
theorem main_reaches_init {env : Env} {argv : List CStr} {persisted : Values}
    (c : Collaborators) {fuel : Nat} {u : Bool} {p : Nat} {boot : CStr}
    (hs : scan env fuel argv persisted = some (ScanExit.done u p boot)) (hb : boot ≠ []) :
    ∃ r rest, main env argv persisted c fuel = some r
      ∧ r.trace =
          [Event.ConfigCtor, Event.LogSetFilter, Event.MicroProfileOnThreadCreate,
           Event.ParseFilterString persisted.log_filter,
           Event.SettingsApply (appliedValues env persisted u p),
           Event.EmuWindowCtor, Event.SystemInit c.initStatus, Event.GetLoader boot] ++ rest
      ∧ (∀ e, e ∈ rest → e.isSettingsApply = false ∧ e.isGetLoader = false) := by
  cases hl : c.getLoader boot with
  | false =>
    refine ⟨_, _, main_no_loader hs hb hl, rfl, ?_⟩
    intro e he
    simp at he
    rcases he with rfl | rfl | rfl | rfl | rfl <;> exact ⟨rfl, rfl⟩
  | true =>
    cases he : c.load with
    | Error code =>
      refine ⟨_, _, main_load_error hs hb hl he, rfl, ?_⟩
      intro e he
      simp at he
      rcases he with rfl | rfl | rfl | rfl | rfl | rfl | rfl <;> exact ⟨rfl, rfl⟩
    | Success =>
      have hloop : ∀ e, e ∈ (runLoop c.isOpen fuel 0).1 →
          e.isSettingsApply = false ∧ e.isGetLoader = false := by
        intro e he
        rcases runLoop_events c.isOpen fuel 0 e he with rfl | rfl | rfl <;> exact ⟨rfl, rfl⟩
      cases hfin : (runLoop c.isOpen fuel 0).2 with
      | true =>
        refine ⟨Run.exited ⟨0, _, appliedValues env persisted u p⟩,
          Event.Load :: ((runLoop c.isOpen fuel 0).1 ++
            [Event.LoaderDtor, Event.SystemShutdown, Event.EmuWindowDtor,
             Event.MicroProfileShutdown, Event.ConfigDtor]), ?_, rfl, ?_⟩
        · simp [main, hs, hb, hl, he, hfin, appliedValues]
        · intro e hm
          simp only [List.mem_cons, List.mem_append, List.mem_singleton] at hm
          rcases hm with rfl | hm | rfl | rfl | rfl | rfl | rfl | hm
          · exact ⟨rfl, rfl⟩
          · exact hloop e hm
          · exact ⟨rfl, rfl⟩
          · exact ⟨rfl, rfl⟩
          · exact ⟨rfl, rfl⟩
          · exact ⟨rfl, rfl⟩
          · exact ⟨rfl, rfl⟩
          · cases hm
      | false =>
        refine ⟨Run.running _ (appliedValues env persisted u p),
          Event.Load :: (runLoop c.isOpen fuel 0).1, ?_, rfl, ?_⟩
        · simp [main, hs, hb, hl, he, hfin, appliedValues]
        · intro e hm
          simp only [List.mem_cons] at hm
          rcases hm with rfl | hm
          · exact ⟨rfl, rfl⟩
          · exact hloop e hm

/-- A run of `main` whose trace holds the apply step or an event of the
session has ended its scan with a non-empty boot file name. -/
theorem main_scan_of_event {env : Env} {argv : List CStr} {persisted : Values}
    {c : Collaborators} {fuel : Nat} {r : Run}
    (hm : main env argv persisted c fuel = some r)
    (he : ∃ e, e ∈ r.trace ∧ (e.isSettingsApply = true ∨ e.inSession = true)) :
    ∃ u p boot, scan env fuel argv persisted = some (ScanExit.done u p boot) ∧ boot ≠ [] := by
  obtain ⟨e, hmem, hkind⟩ := he
  cases hsc : scan env fuel argv persisted with
  | none => simp [main, hsc] at hm
  | some x =>
    cases x with
    | help a =>
      simp only [main, hsc, Option.some.injEq] at hm
      subst hm
      simp [Run.trace] at hmem
      rcases hmem with rfl | rfl | rfl <;>
        simp [Event.inSession, Event.isSettingsApply] at hkind
    | version =>
      simp only [main, hsc, Option.some.injEq] at hm
      subst hm
      simp [Run.trace] at hmem
      rcases hmem with rfl | rfl | rfl <;>
        simp [Event.inSession, Event.isSettingsApply] at hkind
    | badPort =>
      simp only [main, hsc, Option.some.injEq] at hm
      subst hm
      simp [Run.trace] at hmem
      rcases hmem with rfl | rfl <;>
        simp [Event.inSession, Event.isSettingsApply] at hkind
    | nullBootPath =>
      simp only [main, hsc, Option.some.injEq] at hm
      subst hm
      simp [Run.trace] at hmem
    | done u p boot =>
      by_cases hb : boot = []
      · subst hb
        rw [main_no_boot hsc] at hm
        simp only [Option.some.injEq] at hm
        subst hm
        simp [Run.trace] at hmem
        rcases hmem with rfl | rfl | rfl | rfl | rfl | rfl <;>
          simp [Event.inSession, Event.isSettingsApply] at hkind
      · exact ⟨u, p, boot, rfl, hb⟩

/-- Counterexample to C5: `System::Init` reports an error (status 1), and `main`
still requests the loader, loads, enters the run loop and returns 0. -/
theorem init_error_does_not_stop_main :
    main ⟨64, 16, false⟩ ["prog".toList, "game.bin".toList] ⟨false, 24689, []⟩
        ⟨1, fun _ => true, ResultStatus.Success, fun i => decide (i < 1)⟩ 3
      = some (Run.exited ⟨0,
          [Event.ConfigCtor, Event.LogSetFilter, Event.MicroProfileOnThreadCreate,
           Event.ParseFilterString [], Event.SettingsApply ⟨false, 24689, []⟩,
           Event.EmuWindowCtor, Event.SystemInit 1, Event.GetLoader "game.bin".toList,
           Event.Load, Event.IsOpen true, Event.RunLoop, Event.IsOpen false, Event.LoaderDtor,
           Event.SystemShutdown, Event.EmuWindowDtor, Event.MicroProfileShutdown,
           Event.ConfigDtor],
          ⟨false, 24689, []⟩⟩) := by
  decide

/-- C5 as amended.  Whatever status `System::Init` reports, an error or none,
`main` goes on to loader resolution: in every run that reaches `System::Init`
(the scan ends with a non-empty boot file name), whether or not the surface
ever closes, the call that follows `System::Init` is `Loader::GetLoader` for the
boot file name.  And a loader is resolved, a load attempted or the run loop
entered only in a run that has first constructed the display surface and then
called `System::Init`: a trace with such an event starts with the acquisitions,
the surface before the engine, and the event comes behind them. -/
theorem init_status_is_not_consulted (env : Env) (argv : List CStr) (persisted : Values)
    (c : Collaborators) (fuel : Nat) :
    (∀ (u : Bool) (p : Nat) (boot : CStr),
        scan env fuel argv persisted = some (ScanExit.done u p boot) → boot ≠ [] →
        ∃ r rest, main env argv persisted c fuel = some r
          ∧ r.trace =
            [Event.ConfigCtor, Event.LogSetFilter, Event.MicroProfileOnThreadCreate,
             Event.ParseFilterString persisted.log_filter,
             Event.SettingsApply (appliedValues env persisted u p),
             Event.EmuWindowCtor, Event.SystemInit c.initStatus, Event.GetLoader boot]
            ++ rest)
    ∧ ∀ r : Run, main env argv persisted c fuel = some r →
        (∃ e, e ∈ r.trace ∧ e.inSession = true) →
        ∃ v boot rest, r.trace =
          [Event.ConfigCtor, Event.LogSetFilter, Event.MicroProfileOnThreadCreate,
           Event.ParseFilterString persisted.log_filter, Event.SettingsApply v,
           Event.EmuWindowCtor, Event.SystemInit c.initStatus, Event.GetLoader boot]
          ++ rest := by
  constructor
  · intro u p boot hs hb
    obtain ⟨r, rest, hm, ht, -⟩ := main_reaches_init c hs hb
    exact ⟨r, rest, hm, ht⟩
  · intro r hm ⟨e, he, hin⟩
    obtain ⟨u, p, boot, hs, hb⟩ := main_scan_of_event hm ⟨e, he, Or.inr hin⟩
    obtain ⟨r', rest, hm', ht, -⟩ := main_reaches_init c hs hb
    rw [hm] at hm'
    cases hm'
    exact ⟨_, boot, rest, ht⟩

/-- Witness for C5 as amended: `prog game.bin` with `System::Init` reporting an
error (status 1) and a surface that never closes; the request for the loader
follows `System::Init`. -/
theorem init_status_is_not_consulted_witness :
    ∃ r rest, main ⟨64, 16, false⟩ ["prog".toList, "game.bin".toList] ⟨false, 24689, []⟩
        ⟨1, fun _ => true, ResultStatus.Success, fun _ => true⟩ 3 = some r
      ∧ r.trace =
        [Event.ConfigCtor, Event.LogSetFilter, Event.MicroProfileOnThreadCreate,
         Event.ParseFilterString [],
         Event.SettingsApply (appliedValues ⟨64, 16, false⟩ ⟨false, 24689, []⟩ false 24689),
         Event.EmuWindowCtor, Event.SystemInit 1, Event.GetLoader "game.bin".toList]
        ++ rest :=
  (init_status_is_not_consulted ⟨64, 16, false⟩ ["prog".toList, "game.bin".toList]
    ⟨false, 24689, []⟩ ⟨1, fun _ => true, ResultStatus.Success, fun _ => true⟩ 3).1
    false 24689 "game.bin".toList (by decide) (by decide)

/-! ## The debug-port value at the apply step -/

/-- Counterexample to C4: on `prog -g ff game.bin`, with a loader that resolves
and loads, `main` exits with status 1 right after `perror`: `ff` carries no
`0x` prefix, so `strtoul` with base 0 reads it as decimal and consumes nothing.
No stub is enabled, no port is set, no session starts.  Under either ordering. -/
theorem port_ff_is_rejected :
    main ⟨64, 16, false⟩ ["prog".toList, "-g".toList, "ff".toList, "game.bin".toList]
        ⟨false, 24689, []⟩ ⟨0, fun _ => true, ResultStatus.Success, fun _ => false⟩ 8
      = some (Run.exited ⟨1, [Event.ConfigCtor, Event.Perror], ⟨false, 24689, []⟩⟩)
    ∧ main ⟨64, 16, true⟩ ["prog".toList, "-g".toList, "ff".toList, "game.bin".toList]
        ⟨false, 24689, []⟩ ⟨0, fun _ => true, ResultStatus.Success, fun _ => false⟩ 8
      = some (Run.exited ⟨1, [Event.ConfigCtor, Event.Perror], ⟨false, 24689, []⟩⟩) := by
  decide

theorem strtoul_0xff (w : Nat) (h : 255 < 2 ^ w) :
    strtoul w ['0', 'x', 'f', 'f'] = ⟨255, 4, false⟩ := by
  have h' : ¬ 2 ^ w ≤ 255 := by omega
  simp [strtoul, strtoulSign, strtoulSubject, isspace, isDigitOf, digitVal, accDigits, h']

/-- C4 as amended.  On `prog -g ff game.bin` `main` exits with status 1 before
any acquisition.  On `prog -g 0xff game.bin`, with a loader that resolves and
loads and a surface that closes after `n` rounds, `main` applies
`use_gdbstub = true` and `gdbstub_port = 255` and the session runs through
engine initialisation, load and run loop to exit status 0. -/
theorem hex_port_wants_0x (env : Env) (persisted : Values) (c : Collaborators)
    (fuel n : Nat)
    (hul : 255 < 2 ^ env.ulong_bits) (hpb : 255 < 2 ^ env.port_bits)
    (hl : c.getLoader "game.bin".toList = true) (hld : c.load = ResultStatus.Success)
    (hclose : firstClosedAt c.isOpen n = true) (hfuel : n < fuel) (h2 : 2 ≤ fuel) :
    main env ["prog".toList, "-g".toList, "ff".toList, "game.bin".toList] persisted c fuel
      = some (Run.exited ⟨1, [Event.ConfigCtor, Event.Perror], persisted⟩)
    ∧ main env ["prog".toList, "-g".toList, "0xff".toList, "game.bin".toList] persisted c fuel
      = some (Run.exited ⟨0,
          [Event.ConfigCtor, Event.LogSetFilter, Event.MicroProfileOnThreadCreate,
           Event.ParseFilterString persisted.log_filter,
           Event.SettingsApply { persisted with gdbstub_port := 255, use_gdbstub := true },
           Event.EmuWindowCtor, Event.SystemInit c.initStatus, Event.GetLoader "game.bin".toList, Event.Load]
          ++ (List.replicate n [Event.IsOpen true, Event.RunLoop]).flatten
          ++ [Event.IsOpen false, Event.LoaderDtor, Event.SystemShutdown, Event.EmuWindowDtor,
              Event.MicroProfileShutdown, Event.ConfigDtor],
          { persisted with gdbstub_port := 255, use_gdbstub := true }⟩) := by
  constructor
  · exact main_bad_port env "prog".toList [] GdbForm.shortSep "ff".toList
      ["game.bin".toList] persisted c fuel rfl rfl (by simp) (by simp; omega)
  · have hv : validItems env.ulong_bits
        [Item.gdbport GdbForm.shortSep "0xff".toList, Item.positional "game.bin".toList]
        = true := by
      simp [validItems, Item.valid, parses, strtoul_0xff _ hul, NONOPTION_P]
    have hs := scan_items env "prog".toList
      [Item.gdbport GdbForm.shortSep "0xff".toList, Item.positional "game.bin".toList]
      persisted fuel hv (by simp [scannable, optionsFirst]) (by simpa using h2)
    have hp : 255 % 2 ^ env.port_bits = 255 := Nat.mod_eq_of_lt hpb
    have hm := main_session c hs (by simp [scannedBoot, positionals])
      (by simpa [scannedBoot, positionals] using hl) hld hclose hfuel
    have e : main env ["prog".toList, "-g".toList, "0xff".toList, "game.bin".toList]
        persisted c fuel = main env ("prog".toList :: renderItems
          [Item.gdbport GdbForm.shortSep "0xff".toList, Item.positional "game.bin".toList])
        persisted c fuel := rfl
    rw [e, hm]
    simp [scannedUse, scannedPort, scannedBoot, gdbValues, positionals, appliedValues,
      strtoul_0xff _ hul, hp, loopTrace]

/-- Witness for C4 as amended: 64-bit `unsigned long`, 16-bit port field, a
surface that closes after one round. -/
theorem hex_port_wants_0x_witness :
    main ⟨64, 16, false⟩ ["prog".toList, "-g".toList, "ff".toList, "game.bin".toList]
        ⟨false, 24689, []⟩ ⟨0, fun _ => true, ResultStatus.Success, fun i => decide (i < 1)⟩ 3
      = some (Run.exited ⟨1, [Event.ConfigCtor, Event.Perror], ⟨false, 24689, []⟩⟩)
    ∧ main ⟨64, 16, false⟩ ["prog".toList, "-g".toList, "0xff".toList, "game.bin".toList]
        ⟨false, 24689, []⟩ ⟨0, fun _ => true, ResultStatus.Success, fun i => decide (i < 1)⟩ 3
      = some (Run.exited ⟨0,
          [Event.ConfigCtor, Event.LogSetFilter, Event.MicroProfileOnThreadCreate,
           Event.ParseFilterString [],
           Event.SettingsApply ⟨true, 255, []⟩,
           Event.EmuWindowCtor, Event.SystemInit 0, Event.GetLoader "game.bin".toList, Event.Load]
          ++ (List.replicate 1 [Event.IsOpen true, Event.RunLoop]).flatten
          ++ [Event.IsOpen false, Event.LoaderDtor, Event.SystemShutdown, Event.EmuWindowDtor,
              Event.MicroProfileShutdown, Event.ConfigDtor],
          ⟨true, 255, []⟩⟩) :=
  hex_port_wants_0x ⟨64, 16, false⟩ ⟨false, 24689, []⟩
    ⟨0, fun _ => true, ResultStatus.Success, fun i => decide (i < 1)⟩ 3 1
    (by decide) (by decide) rfl rfl (by decide) (by decide) (by decide)

/-! ## Two non-option tokens under the default ordering -/

/-- Under the default ordering the scan of `prog a.bin b.bin` comes back to the
same state after every round: `getopt_long` skips both tokens, returns -1 with
`optind` on the first, `main` takes it and moves `optind` to the second, and
the next call does the same. -/
theorem scanLoop_two_positionals_stuck (ulong_bits port_bits : Nat) (u : Bool) (p : Nat) :
    ∀ fuel : Nat,
      scanLoop ⟨ulong_bits, port_bits, false⟩ fuel
        ⟨⟨["prog".toList, "a.bin".toList, "b.bin".toList], 2, none, [], 1, 3⟩, u, p,
          "a.bin".toList⟩ = none := by
  have hg : getopt_long false
      ⟨["prog".toList, "a.bin".toList, "b.bin".toList], 2, none, [], 1, 3⟩
      = (-1, ⟨["prog".toList, "a.bin".toList, "b.bin".toList], 1, none, [], 1, 3⟩) := by
    decide
  have hd : List.drop 1 ["prog".toList, "a.bin".toList, "b.bin".toList]
      = "a.bin".toList :: ["b.bin".toList] := rfl
  intro fuel
  induction fuel with
  | zero => rfl
  | succ k ih =>
    have hlt : (2 : Nat) < ["prog".toList, "a.bin".toList, "b.bin".toList].length := by decide
    rw [scanLoop_nonoption hlt hg hd]
    exact ih

/-- Under the default ordering `main` never leaves the scan of
`prog a.bin b.bin`, whatever the fuel. -/
theorem main_two_positionals_diverges (persisted : Values) (c : Collaborators) (fuel : Nat) :
    main ⟨64, 16, false⟩ ["prog".toList, "a.bin".toList, "b.bin".toList] persisted c fuel
      = none := by
  have hg : getopt_long false (GetoptData.init ["prog".toList, "a.bin".toList, "b.bin".toList])
      = (-1, ⟨["prog".toList, "a.bin".toList, "b.bin".toList], 1, none, [], 1, 3⟩) := by
    decide
  have hd : List.drop 1 ["prog".toList, "a.bin".toList, "b.bin".toList]
      = "a.bin".toList :: ["b.bin".toList] := rfl
  have hs : scan ⟨64, 16, false⟩ fuel ["prog".toList, "a.bin".toList, "b.bin".toList] persisted
      = none := by
    unfold scan
    cases fuel with
    | zero => rfl
    | succ k =>
      have hlt : (GetoptData.init ["prog".toList, "a.bin".toList, "b.bin".toList]).optind
          < (GetoptData.init ["prog".toList, "a.bin".toList, "b.bin".toList]).argv.length := by
        decide
      rw [scanLoop_nonoption hlt hg hd]
      exact scanLoop_two_positionals_stuck 64 16 _ _ k
  unfold main
  rw [hs]

/-! ## The debug-port options the scan meets -/

/-- C10, the code at the failing inputs.  Under the default ordering of
`getopt_long`: on `prog game.bin -g 1234` the call skips `game.bin`, returns
`g` and leaves `optind == argc`, so the loop ends before `game.bin` is taken
and `main` logs the missing ROM without requesting a loader; on
`prog a.bin b.bin` the scan never ends, whatever the fuel.  With
`POSIXLY_CORRECT` set the same loop takes the last non-option token on both
command lines and requests the loader for it. -/
theorem default_order_loses_boot_path :
    main ⟨64, 16, false⟩ ["prog".toList, "game.bin".toList, "-g".toList, "1234".toList]
        ⟨false, 24689, []⟩ ⟨0, fun _ => true, ResultStatus.Success, fun _ => false⟩ 8
      = some (Run.exited ⟨-1,
          [Event.ConfigCtor, Event.LogSetFilter, Event.MicroProfileOnThreadCreate,
           Event.LogNoRomSpecified, Event.MicroProfileShutdown, Event.ConfigDtor],
          ⟨false, 24689, []⟩⟩)
    ∧ (∀ fuel : Nat,
        main ⟨64, 16, false⟩ ["prog".toList, "a.bin".toList, "b.bin".toList]
          ⟨false, 24689, []⟩ ⟨0, fun _ => true, ResultStatus.Success, fun _ => false⟩ fuel
        = none)
    ∧ main ⟨64, 16, true⟩ ["prog".toList, "game.bin".toList, "-g".toList, "1234".toList]
        ⟨false, 24689, []⟩ ⟨0, fun _ => true, ResultStatus.Success, fun _ => false⟩ 8
      = some (Run.exited ⟨0,
          [Event.ConfigCtor, Event.LogSetFilter, Event.MicroProfileOnThreadCreate,
           Event.ParseFilterString [], Event.SettingsApply ⟨true, 1234, []⟩,
           Event.EmuWindowCtor, Event.SystemInit 0, Event.GetLoader "game.bin".toList, Event.Load,
           Event.IsOpen false, Event.LoaderDtor, Event.SystemShutdown, Event.EmuWindowDtor,
           Event.MicroProfileShutdown, Event.ConfigDtor],
          ⟨true, 1234, []⟩⟩)
    ∧ main ⟨64, 16, true⟩ ["prog".toList, "a.bin".toList, "b.bin".toList]
        ⟨false, 24689, []⟩ ⟨0, fun _ => true, ResultStatus.Success, fun _ => false⟩ 8
      = some (Run.exited ⟨0,
          [Event.ConfigCtor, Event.LogSetFilter, Event.MicroProfileOnThreadCreate,
           Event.ParseFilterString [], Event.SettingsApply ⟨false, 24689, []⟩,
           Event.EmuWindowCtor, Event.SystemInit 0, Event.GetLoader "b.bin".toList, Event.Load,
           Event.IsOpen false, Event.LoaderDtor, Event.SystemShutdown, Event.EmuWindowDtor,
           Event.MicroProfileShutdown, Event.ConfigDtor],
          ⟨false, 24689, []⟩⟩) :=
  ⟨by decide, fun fuel => main_two_positionals_diverges _ _ fuel, by decide, by decide⟩

/-- When the scan runs through a command line of valid items in order
(`POSIXLY_CORRECT`, or the options first and a single non-option token behind
them) and the last non-option token is not empty, `main` requests exactly one
loader, for that token, whether or not the surface closes. -/
theorem in_order_scan_loads_last_positional (env : Env) (prog : CStr) (items : List Item)
    (persisted : Values) (c : Collaborators) (fuel : Nat) (boot : CStr)
    (hv : validItems env.ulong_bits items = true)
    (hs : scannable env items = true)
    (hboot : (positionals items).getLast? = some boot) (hne : boot ≠ [])
    (hlen : items.length ≤ fuel) :
    ∃ r, main env (prog :: renderItems items) persisted c fuel = some r
      ∧ r.trace.filter Event.isGetLoader = [Event.GetLoader boot] := by
  have hsc := scan_items env prog items persisted fuel hv hs hlen
  have hb : scannedBoot [] items = boot := by simp [scannedBoot, hboot]
  rw [hb] at hsc
  obtain ⟨r, rest, hm, ht, hrest⟩ := main_reaches_init c hsc hne
  refine ⟨r, hm, ?_⟩
  rw [ht]
  have hnil : rest.filter Event.isGetLoader = [] := by
    rw [List.filter_eq_nil_iff]
    intro e he
    simp [(hrest e he).2]
  simp [List.filter_cons, List.filter_append, Event.isGetLoader, hnil]

end Citra
